import Mathlib

/-!
Adafruit MAX31855 driver: frame decoding and K-type linearization.

A shallow embedding of `src/Adafruit_MAX31855.cpp`.

* `uint32_t` / `int32_t` / `int16_t` values are bit patterns held in `Nat`, reduced
  modulo `2 ^ 32` (resp. `2 ^ 16`) where the C type does so, and reinterpreted as signed
  integers by `toInt32` / `toInt16` where the source converts them to a floating type.
* The two decode functions only ever multiply a small integer by a power of two, so their
  `float` / `double` results are exact; they are held in `Dbl`, which is `NAN` or an exact
  rational.
* `readFarenheit` and `linearizeCelcius64` follow the arithmetic of the C types: values
  are IEEE 754 values (`Fl`: NaN, the infinities, or a finite number), `float` is binary32
  and `double` binary64, and every operation rounds on its own (no fused multiply-add) to
  nearest, ties to even (`roundTo`), overflowing to an infinity.  The sign of a zero is not
  kept, and the library function `pow` is taken as the correctly rounded power.
* `linearizeCelcius` (with `fadd`, `fsub`, `fmul`, `flt`, `pow`) is the same function read
  in exact arithmetic, without rounding or overflow; it carries the statements that are
  made in exact arithmetic.
* `spiread32()` is the bus transaction; the `read*` functions take the frame it returned
  as their argument.  `spiread32` itself is modelled over the answers of the bus (`Bus`):
  the bytes returned by the SPI controller and the levels sampled on the data line.
-/

namespace MAX31855

/-! ## Floating values -/

/-- A C floating value read in exact arithmetic: `none` is NaN, `some q` the finite value
`q`; rounding and the infinities are left to `Fl`. -/
abbrev Dbl := Option ℚ

/-- The C constant `NAN`. -/
def NAN : Dbl := none

/-- C `isnan`. -/
def isnan (x : Dbl) : Bool := x.isNone

/-- Addition in exact arithmetic; NaN propagates. -/
def fadd : Dbl → Dbl → Dbl
  | some a, some b => some (a + b)
  | _, _ => none

/-- Subtraction in exact arithmetic; NaN propagates. -/
def fsub : Dbl → Dbl → Dbl
  | some a, some b => some (a - b)
  | _, _ => none

/-- Multiplication in exact arithmetic; NaN propagates. -/
def fmul : Dbl → Dbl → Dbl
  | some a, some b => some (a * b)
  | _, _ => none

/-- The C comparison `x < y` on floating values: false as soon as an operand is NaN. -/
def flt : Dbl → Dbl → Bool
  | some a, some b => decide (a < b)
  | _, _ => false

/-- C `pow(x, i)` for a non-negative integer exponent, in exact arithmetic (the rounded
function is `flpow`); `pow(x, 0)` is 1 even for NaN. -/
def pow : Dbl → Nat → Dbl
  | _, 0 => some 1
  | some a, i + 1 => some (a ^ (i + 1))
  | none, _ + 1 => none

/-! ## Machine integers -/

/-- Reinterpret a 32-bit pattern as `int32_t`. -/
def toInt32 (u : Nat) : Int :=
  if u % 2 ^ 32 < 2 ^ 31 then (u % 2 ^ 32 : Nat) else ((u % 2 ^ 32 : Nat) : Int) - 2 ^ 32

/-- Conversion of an unsigned value to `int16_t` (reduction modulo `2 ^ 16`). -/
def toInt16 (u : Nat) : Int :=
  if u % 2 ^ 16 < 2 ^ 15 then (u % 2 ^ 16 : Nat) else ((u % 2 ^ 16 : Nat) : Int) - 2 ^ 16

/-- The operator `>>` on an `int32_t` held as a 32-bit pattern: an arithmetic shift, the
vacated high bits are copies of the sign bit. -/
def sar32 (v k : Nat) : Nat :=
  if v < 2 ^ 31 then v >>> k else ((v >>> k) ||| ((2 ^ k - 1) <<< (32 - k))) % 2 ^ 32

/-! ## Decoding -/

/-- `Adafruit_MAX31855::decodeCelsius(uint32_t rawData)`. -/
def decodeCelsius (rawData : Nat) : Dbl :=
  -- int32_t v = rawData;
  let v := rawData % 2 ^ 32
  if v &&& 0x7 ≠ 0 then
    NAN
  else
    let v :=
      if v &&& 0x80000000 ≠ 0 then
        -- v = 0xFFFFC000 | ((v >> 18) & 0x00003FFF);
        (0xFFFFC000 ||| (sar32 v 18 &&& 0x00003FFF)) % 2 ^ 32
      else
        -- v >>= 18;
        sar32 v 18
    -- double centigrade = v;
    let centigrade : Dbl := some ((toInt32 v : Int) : ℚ)
    -- centigrade *= 0.25;
    fmul centigrade (some 0.25)

/-- `Adafruit_MAX31855::decodeInternal(uint32_t rawData)`. -/
def decodeInternal (rawData : Nat) : Dbl :=
  -- uint32_t v = rawData;
  let v := rawData % 2 ^ 32
  if v &&& 0x7 ≠ 0 then
    NAN
  else
    -- v >>= 4;
    let v := v >>> 4
    -- float internal = v & 0x7FF;
    let internal : Dbl := some (((v &&& 0x7FF : Nat) : ℚ))
    let internal : Dbl :=
      if v &&& 0x800 ≠ 0 then
        -- int16_t tmp = 0xF800 | (v & 0x7FF); internal = tmp;
        some ((toInt16 (0xF800 ||| (v &&& 0x7FF)) : Int) : ℚ)
      else internal
    -- internal *= 0.0625;
    fmul internal (some 0.0625)

/-- `Adafruit_MAX31855::readInternal()`; `frame` is the value `spiread32()` returned. -/
def readInternal (frame : Nat) : Dbl :=
  let v := frame % 2 ^ 32
  if v &&& 0x7 ≠ 0 ∨ v = 0x0 then
    NAN
  else
    let v := v >>> 4
    let internal : Dbl := some (((v &&& 0x7FF : Nat) : ℚ))
    let internal : Dbl :=
      if v &&& 0x800 ≠ 0 then
        some ((toInt16 (0xF800 ||| (v &&& 0x7FF)) : Int) : ℚ)
      else internal
    fmul internal (some 0.0625)

/-- `Adafruit_MAX31855::readCelsius()`; `frame` is the value `spiread32()` returned. -/
def readCelsius (frame : Nat) : Dbl :=
  decodeCelsius frame

/-- `Adafruit_MAX31855::readError()`, a `uint8_t`; `frame` is the value `spiread32()`
returned. -/
def readError (frame : Nat) : Nat :=
  ((frame % 2 ^ 32) &&& 0x7) % 2 ^ 8

/-! ## Linearization -/

/-- The locals of `linearizeCelcius` that the coefficient loops update: the array counter
`i` and the accumulator `correctedTemp`. -/
structure LinearizeState where
  i : Nat
  correctedTemp : Dbl

/-- One pass through a loop body `correctedTemp += d[i] * pow(totalVoltage, i)` followed
by `i++`, in exact arithmetic. -/
def polyStep (d : List ℚ) (totalVoltage : Dbl) (s : LinearizeState) : LinearizeState :=
  { i := s.i + 1
    correctedTemp := fadd s.correctedTemp (fmul (some (d.getD s.i 0)) (pow totalVoltage s.i)) }

/-- The loop `for (i = 0; i < dLength; i++) ...` run for `n` passes, in exact arithmetic. -/
def forLoop (d : List ℚ) (totalVoltage : Dbl) : Nat → LinearizeState → LinearizeState
  | 0, s => s
  | n + 1, s => forLoop d totalVoltage n (polyStep d totalVoltage s)

/-- Coefficient array of the branch `totalVoltage < 0`. -/
def dSubZero : List ℚ :=
  [0.0000000E+00, 2.5173462E+01, -1.1662878E+00, -1.0833638E+00, -8.9773540E-01,
   -3.7342377E-01, -8.6632643E-02, -1.0450598E-02, -5.1920577E-04, 0.0000000E+00]

/-- Coefficient array of the branch `totalVoltage < 20.644`. -/
def dMid : List ℚ :=
  [0.000000E+00, 2.508355E+01, 7.860106E-02, -2.503131E-01, 8.315270E-02,
   -1.228034E-02, 9.804036E-04, -4.413030E-05, 1.057734E-06, -1.052755E-08]

/-- Coefficient array of the branch `totalVoltage < 54.886`. -/
def dHigh : List ℚ :=
  [-1.318058E+02, 4.830222E+01, -1.646031E+00, 5.464731E-02, -9.650715E-04,
   8.802193E-06, -3.110810E-08, 0.000000E+00, 0.000000E+00, 0.000000E+00]

/-- The body of `Adafruit_MAX31855::linearizeCelcius` read in exact arithmetic (the
binary64 reading is `linearizeRun64`), returning the final values of the locals `i` and
`correctedTemp` (the latter is what the function returns). -/
def linearizeRun (internalTemp rawTemp : Dbl) : LinearizeState :=
  -- int i = 0; double correctedTemp = 0.0;
  let s : LinearizeState := { i := 0, correctedTemp := some 0.0 }
  if isnan rawTemp then
    { s with correctedTemp := NAN }
  else
    let thermocoupleVoltage := fmul (fsub rawTemp internalTemp) (some 0.041276)
    let internalVoltage := fmul internalTemp (some 0.04073)
    let totalVoltage := fadd thermocoupleVoltage internalVoltage
    if flt totalVoltage (some 0) then
      forLoop dSubZero totalVoltage dSubZero.length s
    else if flt totalVoltage (some 20.644) then
      forLoop dMid totalVoltage dMid.length s
    else if flt totalVoltage (some 54.886) then
      forLoop dHigh totalVoltage dHigh.length s
    else
      { s with correctedTemp := NAN }

/-- `Adafruit_MAX31855::linearizeCelcius(double internalTemp, double rawTemp)` read in
exact arithmetic; `linearizeCelcius64` is the function as the code computes it. -/
def linearizeCelcius (internalTemp rawTemp : Dbl) : Dbl :=
  (linearizeRun internalTemp rawTemp).correctedTemp

/-! ## Acquisition -/

/-- `Adafruit_MAX31855::readRaw()`; `frame` is the value `spiread32()` returned. -/
def readRaw (frame : Nat) : Nat :=
  -- int32_t v = spiread32();
  let v := frame % 2 ^ 32
  if v &&& 0x7 ≠ 0 ∨ v = 0x0 then
    -- we can't return NAN for integer - return 0
    0
  else
    v

/-- What the bus answers during one transaction: `transfer k` is the value returned by the
`k`-th call of `MAXSPI->transfer(0)` (a `uint8_t`, `SPI.h` is not part of the sources),
`digitalRead k` tells whether the `k`-th call of `digitalRead(miso)` returned non-zero. -/
structure Bus where
  transfer : Nat → Nat
  digitalRead : Nat → Bool

/-- The hardware branch of `spiread32`. -/
def spiread32Hardware (bus : Bus) : Nat :=
  -- d = MAXSPI->transfer(0);
  let d := bus.transfer 0 % 2 ^ 8
  -- d <<= 8; d |= MAXSPI->transfer(0);
  let d := (d <<< 8) % 2 ^ 32
  let d := d ||| (bus.transfer 1 % 2 ^ 8)
  -- d <<= 8; d |= MAXSPI->transfer(0);
  let d := (d <<< 8) % 2 ^ 32
  let d := d ||| (bus.transfer 2 % 2 ^ 8)
  -- d <<= 8; d |= MAXSPI->transfer(0);
  let d := (d <<< 8) % 2 ^ 32
  let d := d ||| (bus.transfer 3 % 2 ^ 8)
  d

/-- The loop `for (i=31; i>=0; i--)` of the software branch of `spiread32`, as a function
of the number of passes left and of `d`: with `i + 1` passes left the loop variable is `i`,
and the pass samples the data line for the `(31 - i)`-th time. -/
def softwareLoop (bus : Bus) : Nat → Nat → Nat
  | 0, d => d
  | i + 1, d =>
    -- d <<= 1;
    let d := (d <<< 1) % 2 ^ 32
    -- if (digitalRead(miso)) d |= 1;
    let d := if bus.digitalRead (31 - i) then d ||| 1 else d
    softwareLoop bus i d

/-- The value returned by `Adafruit_MAX31855::spiread32()`: `sclk == -1` selects the
hardware branch.  The pin writes and delays do not enter the returned value. -/
def spiread32 (sclk : Int) (bus : Bus) : Nat :=
  -- uint32_t d = 0;
  let d := 0
  if sclk = -1 then
    spiread32Hardware bus
  else
    softwareLoop bus 32 d

/-- A transaction carrying the frame `0x0FA00A00`: the bytes `0F A0 0A 00` on the hardware
path, the same 32 bits most-significant first on the data line. -/
def sampleBus : Bus :=
  { transfer := fun k => [0x0F, 0xA0, 0x0A, 0x00].getD k 0
    digitalRead := fun k => Nat.testBit 0x0FA00A00 (31 - k) }

/-! ## Binary floating point -/

/-- An IEEE 754 value: NaN, an infinity, or a finite number (the sign of a zero is not
kept). -/
inductive Fl where
  | nan : Fl
  | pinf : Fl
  | ninf : Fl
  | fin (q : ℚ) : Fl
deriving DecidableEq, Repr

/-- A binary interchange format: precision `p` in bits, exponent range `emin..emax`. -/
structure Format where
  p : Nat
  emin : Int
  emax : Int

/-- The C type `float` (IEEE 754 binary32). -/
def binary32 : Format := { p := 24, emin := -126, emax := 127 }

/-- The C type `double` (IEEE 754 binary64). -/
def binary64 : Format := { p := 53, emin := -1022, emax := 1023 }

/-- Rounding of a rational to the nearest integer, ties to the even one. -/
def roundEven (q : ℚ) : Int :=
  if q - ⌊q⌋ < 1 / 2 then ⌊q⌋
  else if 1 / 2 < q - ⌊q⌋ then ⌊q⌋ + 1
  else if ⌊q⌋ % 2 = 0 then ⌊q⌋ else ⌊q⌋ + 1

/-- The unit in the last place of the format at `x`: `2 ^ (e - (p - 1))`, where `e` is the
binary exponent of `x`, not below `emin` (subnormal range). -/
def ulpOf (F : Format) (x : ℚ) : ℚ :=
  2 ^ (max (Int.log 2 |x|) F.emin - ((F.p : Int) - 1))

/-- The multiple of the unit in the last place nearest to `x`, ties to even. -/
def roundVal (F : Format) (x : ℚ) : ℚ :=
  (roundEven (x / ulpOf F x) : ℚ) * ulpOf F x

/-- Rounding to nearest, ties to even, into the format `F`: a result of magnitude
`2 ^ (emax + 1)` or more overflows to the infinity of the sign of `x`. -/
def roundTo (F : Format) (x : ℚ) : Fl :=
  if (2 : ℚ) ^ (F.emax + 1) ≤ |roundVal F x| then
    (if 0 < x then Fl.pinf else Fl.ninf)
  else Fl.fin (roundVal F x)

/-- Conversion of a decoded value (exact, see `Dbl`) to an IEEE value. -/
def ofDbl : Dbl → Fl
  | some q => Fl.fin q
  | none => Fl.nan

/-- A decimal constant of the source, as the `double` the compiler stores. -/
def lit64 (q : ℚ) : Fl := roundTo binary64 q

/-- Conversion to `float` (assignment of a `double` expression to a `float` variable). -/
def toFloat : Fl → Fl
  | Fl.fin q => roundTo binary32 q
  | x => x

/-- C `isnan` on an IEEE value. -/
def flisnan : Fl → Bool
  | Fl.nan => true
  | _ => false

/-- IEEE negation. -/
def flneg : Fl → Fl
  | Fl.fin a => Fl.fin (-a)
  | Fl.pinf => Fl.ninf
  | Fl.ninf => Fl.pinf
  | Fl.nan => Fl.nan

/-- IEEE addition in the format `F`. -/
def fladd (F : Format) : Fl → Fl → Fl
  | Fl.fin a, Fl.fin b => roundTo F (a + b)
  | Fl.nan, _ => Fl.nan
  | _, Fl.nan => Fl.nan
  | Fl.pinf, Fl.ninf => Fl.nan
  | Fl.ninf, Fl.pinf => Fl.nan
  | Fl.pinf, _ => Fl.pinf
  | _, Fl.pinf => Fl.pinf
  | Fl.ninf, _ => Fl.ninf
  | _, Fl.ninf => Fl.ninf

/-- IEEE subtraction in the format `F`. -/
def flsub (F : Format) (x y : Fl) : Fl :=
  fladd F x (flneg y)

/-- The infinity of a given sign. -/
def infOfSign (positive : Bool) : Fl :=
  if positive then Fl.pinf else Fl.ninf

/-- IEEE multiplication in the format `F`; infinity times zero is NaN. -/
def flmul (F : Format) : Fl → Fl → Fl
  | Fl.fin a, Fl.fin b => roundTo F (a * b)
  | Fl.nan, _ => Fl.nan
  | _, Fl.nan => Fl.nan
  | Fl.pinf, Fl.pinf => Fl.pinf
  | Fl.pinf, Fl.ninf => Fl.ninf
  | Fl.ninf, Fl.pinf => Fl.ninf
  | Fl.ninf, Fl.ninf => Fl.pinf
  | Fl.pinf, Fl.fin b => if b = 0 then Fl.nan else infOfSign (decide (0 < b))
  | Fl.ninf, Fl.fin b => if b = 0 then Fl.nan else infOfSign (decide (b < 0))
  | Fl.fin a, Fl.pinf => if a = 0 then Fl.nan else infOfSign (decide (0 < a))
  | Fl.fin a, Fl.ninf => if a = 0 then Fl.nan else infOfSign (decide (a < 0))

/-- IEEE division in the format `F`.  The sign of a zero is not kept, a zero divisor counts
as positive; the source only ever divides by the constant 5.0. -/
def fldiv (F : Format) : Fl → Fl → Fl
  | Fl.fin a, Fl.fin b =>
    if b = 0 then (if a = 0 then Fl.nan else infOfSign (decide (0 < a)))
    else roundTo F (a / b)
  | Fl.nan, _ => Fl.nan
  | _, Fl.nan => Fl.nan
  | Fl.fin _, Fl.pinf => Fl.fin 0
  | Fl.fin _, Fl.ninf => Fl.fin 0
  | Fl.pinf, Fl.fin b => infOfSign (decide (0 ≤ b))
  | Fl.ninf, Fl.fin b => infOfSign (decide (b < 0))
  | Fl.pinf, Fl.pinf => Fl.nan
  | Fl.pinf, Fl.ninf => Fl.nan
  | Fl.ninf, Fl.pinf => Fl.nan
  | Fl.ninf, Fl.ninf => Fl.nan

/-- The C comparison `x < y` on IEEE values: false as soon as an operand is NaN. -/
def fllt : Fl → Fl → Bool
  | Fl.fin a, Fl.fin b => decide (a < b)
  | Fl.ninf, Fl.fin _ => true
  | Fl.ninf, Fl.pinf => true
  | Fl.fin _, Fl.pinf => true
  | _, _ => false

/-- C `pow(x, i)` on a `double` for a non-negative integer exponent, taken as the exact
power rounded to binary64 (`pow` belongs to the C library, not to the sources):
`pow(x, 0)` is 1 even for NaN, and a power of magnitude `2 ^ 1024` or more overflows to
an infinity. -/
def flpow : Fl → Nat → Fl
  | _, 0 => Fl.fin 1
  | Fl.fin a, i + 1 => roundTo binary64 (a ^ (i + 1))
  | Fl.pinf, _ + 1 => Fl.pinf
  | Fl.ninf, i + 1 => if (i + 1) % 2 = 1 then Fl.ninf else Fl.pinf
  | Fl.nan, _ + 1 => Fl.nan

/-- `Adafruit_MAX31855::readFarenheit()` with the arithmetic of the C types: `f` is a
`float`, the constants 9.0 and 5.0 are `double`, so each of `f *= 9.0` and `f /= 5.0` is
computed in binary64 and stored to binary32, and `f += 32` is a binary32 addition.
`frame` is the value `spiread32()` returned. -/
def readFarenheit (frame : Nat) : Fl :=
  -- float f = readCelsius();
  let f := toFloat (ofDbl (readCelsius frame))
  -- f *= 9.0;
  let f := toFloat (flmul binary64 f (lit64 9.0))
  -- f /= 5.0;
  let f := toFloat (fldiv binary64 f (lit64 5.0))
  -- f += 32;
  let f := fladd binary32 f (roundTo binary32 32)
  f

/-- The locals of `linearizeCelcius` that the coefficient loops update, as binary64
values. -/
structure LinearizeState64 where
  i : Nat
  correctedTemp : Fl

/-- One pass through a loop body `correctedTemp += d[i] * pow(totalVoltage, i)` followed
by `i++`, in binary64; `d` holds the decimal constants of the array initialiser. -/
def polyStep64 (d : List ℚ) (totalVoltage : Fl) (s : LinearizeState64) : LinearizeState64 :=
  { i := s.i + 1
    correctedTemp :=
      fladd binary64 s.correctedTemp
        (flmul binary64 (lit64 (d.getD s.i 0)) (flpow totalVoltage s.i)) }

/-- The loop `for (i = 0; i < dLength; i++) ...` run for `n` passes, in binary64. -/
def forLoop64 (d : List ℚ) (totalVoltage : Fl) : Nat → LinearizeState64 → LinearizeState64
  | 0, s => s
  | n + 1, s => forLoop64 d totalVoltage n (polyStep64 d totalVoltage s)

/-- The local `totalVoltage` of `linearizeCelcius` as the code computes it in binary64
(steps 1 to 4 of the source). -/
def totalVoltage64 (internalTemp rawTemp : Fl) : Fl :=
  -- thermocoupleVoltage = (rawTemp - internalTemp) * 0.041276;
  let thermocoupleVoltage := flmul binary64 (flsub binary64 rawTemp internalTemp) (lit64 0.041276)
  -- internalVoltage = internalTemp * 0.04073;
  let internalVoltage := flmul binary64 internalTemp (lit64 0.04073)
  -- totalVoltage = thermocoupleVoltage + internalVoltage;
  fladd binary64 thermocoupleVoltage internalVoltage

/-- The body of `Adafruit_MAX31855::linearizeCelcius` in binary64 arithmetic, returning
the final values of the locals `i` and `correctedTemp`. -/
def linearizeRun64 (internalTemp rawTemp : Fl) : LinearizeState64 :=
  -- int i = 0; double correctedTemp = 0.0;
  let s : LinearizeState64 := { i := 0, correctedTemp := lit64 0.0 }
  if flisnan rawTemp then
    { s with correctedTemp := Fl.nan }
  else
    let totalVoltage := totalVoltage64 internalTemp rawTemp
    if fllt totalVoltage (lit64 0) then
      forLoop64 dSubZero totalVoltage dSubZero.length s
    else if fllt totalVoltage (lit64 20.644) then
      forLoop64 dMid totalVoltage dMid.length s
    else if fllt totalVoltage (lit64 54.886) then
      forLoop64 dHigh totalVoltage dHigh.length s
    else
      { s with correctedTemp := Fl.nan }

/-- `Adafruit_MAX31855::linearizeCelcius(double internalTemp, double rawTemp)` in binary64
arithmetic. -/
def linearizeCelcius64 (internalTemp rawTemp : Fl) : Fl :=
  (linearizeRun64 internalTemp rawTemp).correctedTemp

/-- The `double` constant written `20.644` in the source. -/
def k20644 : ℚ := roundVal binary64 20.644

/-- The `double` constant written `54.886` in the source. -/
def k54886 : ℚ := roundVal binary64 54.886

/-! ## Vocabulary of the specification -/

/-- The total voltage `Vtotal = Vtc + Vcj` of the specification (section 4.2, steps 1-3),
for finite inputs. -/
def Vtotal (internalTemp rawTemp : ℚ) : ℚ :=
  (rawTemp - internalTemp) * 0.041276 + internalTemp * 0.04073

/-- The specification's 9-term table `d0..d8` for `Vtotal < 0`. -/
def specSubZero : List ℚ :=
  [0, 25.173462, -1.1662878, -1.0833638, -0.8977354, -0.37342377, -0.086632643,
   -0.010450598, -0.00051920577]

/-- The specification's 10-term table `d0..d9` for `0 ≤ Vtotal < 20.644`. -/
def specMid : List ℚ :=
  [0, 25.08355, 0.07860106, -0.2503131, 0.0831527, -0.01228034, 0.0009804036,
   -0.00004413030, 0.000001057734, -0.00000001052755]

/-- The specification's 7-term table `d0..d6` for `20.644 ≤ Vtotal < 54.886`. -/
def specHigh : List ℚ :=
  [-131.8058, 48.30222, -1.646031, 0.05464731, -0.0009650715, 0.000008802193,
   -0.00000003110810]

/-- Plain polynomial evaluation `Σ dᵢ · x^i` over a coefficient table (specification,
section 4.2, step 5). -/
def polySum (ds : List ℚ) (x : ℚ) : ℚ :=
  ∑ i ∈ Finset.range ds.length, ds.getD i 0 * x ^ i

/-! ## Bit-mask arithmetic -/

theorem and_7 (x : Nat) : x &&& 0x7 = x % 8 :=
  Nat.and_pow_two_sub_one_eq_mod x 3

theorem and_3FFF (x : Nat) : x &&& 0x00003FFF = x % 16384 :=
  Nat.and_pow_two_sub_one_eq_mod x 14

theorem and_7FF (x : Nat) : x &&& 0x7FF = x % 2048 :=
  Nat.and_pow_two_sub_one_eq_mod x 11

theorem and_800 (x : Nat) : x &&& 0x800 = 2048 * (x / 2048 % 2) := by
  have h := Nat.and_two_pow x 11
  rw [Nat.testBit_to_div_mod] at h
  norm_num at h
  rw [h]
  rcases Nat.mod_two_eq_zero_or_one (x / 2048) with h0 | h1
  · simp [h0]
  · simp [h1]

theorem and_80000000 (x : Nat) : x &&& 0x80000000 = 2147483648 * (x / 2147483648 % 2) := by
  have h := Nat.and_two_pow x 31
  rw [Nat.testBit_to_div_mod] at h
  norm_num at h
  rw [h]
  rcases Nat.mod_two_eq_zero_or_one (x / 2147483648) with h0 | h1
  · simp [h0]
  · simp [h1]

theorem or_FFFFC000 (b : Nat) (hb : b < 16384) : 0xFFFFC000 ||| b = 4294950912 + b := by
  have h := @Nat.mul_add_lt_is_or 14 b (by norm_num; exact hb) 262143
  norm_num at h
  exact h.symm

theorem or_F800 (b : Nat) (hb : b < 2048) : 0xF800 ||| b = 63488 + b := by
  have h := @Nat.mul_add_lt_is_or 11 b (by norm_num; exact hb) 31
  norm_num at h
  exact h.symm

theorem sar32_18_mod (v : Nat) (hv : v < 2 ^ 32) : sar32 v 18 % 16384 = v / 262144 := by
  unfold sar32
  split
  · rw [Nat.shiftRight_eq_div_pow]
    norm_num
    omega
  · rw [Nat.shiftRight_eq_div_pow, Nat.shiftLeft_eq]
    have hlt : v / 2 ^ 18 < 2 ^ 14 := by norm_num; omega
    have h := Nat.mul_add_lt_is_or hlt 262143
    norm_num at h hlt ⊢
    rw [Nat.or_comm, ← h]
    omega

theorem sar32_18_nonneg (v : Nat) (hv : v < 2 ^ 31) : sar32 v 18 = v / 262144 := by
  unfold sar32
  rw [if_pos hv, Nat.shiftRight_eq_div_pow]

theorem toInt32_of_lt (u : Nat) (h : u < 2147483648) : toInt32 u = (u : Int) := by
  unfold toInt32
  have h1 : u % 2 ^ 32 = u := Nat.mod_eq_of_lt (by omega)
  rw [h1, if_pos (by norm_num; exact h)]

theorem toInt32_of_ge (u : Nat) (h : 2147483648 ≤ u) (h2 : u < 4294967296) :
    toInt32 u = (u : Int) - 4294967296 := by
  unfold toInt32
  have h1 : u % 2 ^ 32 = u := Nat.mod_eq_of_lt (by omega)
  rw [h1, if_neg (by norm_num; exact h)]
  norm_num

theorem toInt16_of_ge (u : Nat) (h : 32768 ≤ u) (h2 : u < 65536) :
    toInt16 u = (u : Int) - 65536 := by
  unfold toInt16
  have h1 : u % 2 ^ 16 = u := Nat.mod_eq_of_lt (by omega)
  rw [h1, if_neg (by norm_num; exact h)]
  norm_num

/-- The value of `decodeCelsius` on a frame without fault bits: the top 14 bits read as a
two's-complement integer, times a quarter. -/
theorem decodeCelsius_eq (r : Nat) (hr : r < 2 ^ 32) (h7 : r % 8 = 0) :
    decodeCelsius r = some (((if r < 2 ^ 31 then ((r / 262144 : Nat) : Int)
      else ((r / 262144 : Nat) : Int) - 16384) : Int) * (1 / 4 : ℚ)) := by
  have hmod : r % 2 ^ 32 = r := Nat.mod_eq_of_lt hr
  have hF : ¬ (r &&& 0x7 ≠ 0) := by rw [and_7]; omega
  by_cases hs : r < 2 ^ 31
  · have hA : ¬ (r &&& 0x80000000 ≠ 0) := by rw [and_80000000]; omega
    have h2 : r / 262144 < 2147483648 := by omega
    simp only [decodeCelsius, hmod, if_neg hF, if_neg hA, if_pos hs, sar32_18_nonneg r hs,
      toInt32_of_lt _ h2, fmul]
    norm_num
  · have hA : r &&& 0x80000000 ≠ 0 := by rw [and_80000000]; omega
    have hb : r / 262144 < 16384 := by omega
    have h3 : (4294950912 + r / 262144) % 2 ^ 32 = 4294950912 + r / 262144 := by omega
    have h4 : toInt32 (4294950912 + r / 262144) = ((r / 262144 : Nat) : Int) - 16384 := by
      rw [toInt32_of_ge _ (by omega) (by omega)]
      push_cast
      ring
    simp only [decodeCelsius, hmod, if_neg hF, if_pos hA, if_neg hs, and_3FFF,
      sar32_18_mod r hr, or_FFFFC000 _ hb, h3, h4, fmul]
    norm_num

/-- The value of `decodeInternal` on a frame without fault bits: bits 15-4 read as a
two's-complement integer, times a sixteenth. -/
theorem decodeInternal_eq (r : Nat) (hr : r < 2 ^ 32) (h7 : r % 8 = 0) :
    decodeInternal r = some (((if r / 16 % 4096 < 2048 then ((r / 16 % 4096 : Nat) : Int)
      else ((r / 16 % 4096 : Nat) : Int) - 4096) : Int) * (1 / 16 : ℚ)) := by
  have hmod : r % 2 ^ 32 = r := Nat.mod_eq_of_lt hr
  have hF : ¬ (r &&& 0x7 ≠ 0) := by rw [and_7]; omega
  have hsh : r >>> 4 = r / 16 := Nat.shiftRight_eq_div_pow r 4
  by_cases hs : r / 16 % 4096 < 2048
  · have hA : ¬ (r / 16 &&& 0x800 ≠ 0) := by rw [and_800]; omega
    have h2 : r / 16 % 2048 = r / 16 % 4096 := by omega
    simp only [decodeInternal, hmod, if_neg hF, hsh, if_neg hA, if_pos hs, and_7FF, h2, fmul,
      Int.cast_natCast]
    norm_num
  · have hA : r / 16 &&& 0x800 ≠ 0 := by rw [and_800]; omega
    have hb : r / 16 % 2048 < 2048 := by omega
    have h4 : toInt16 (63488 + r / 16 % 2048) = ((r / 16 % 4096 : Nat) : Int) - 4096 := by
      rw [toInt16_of_ge _ (by omega) (by omega)]
      omega
    simp only [decodeInternal, hmod, if_neg hF, hsh, if_pos hA, if_neg hs, and_7FF,
      or_F800 _ hb, h4, fmul]
    norm_num

/-! ## Linearization lemmas -/

theorem pow_some (x : ℚ) (i : Nat) : pow (some x) i = some (x ^ i) := by
  cases i with
  | zero => simp [pow]
  | succ k => simp [pow]

theorem forLoop_i (d : List ℚ) (V : Dbl) (n : Nat) (s : LinearizeState) :
    (forLoop d V n s).i = s.i + n := by
  induction n generalizing s with
  | zero => simp [forLoop]
  | succ k ih =>
    simp only [forLoop, ih, polyStep]
    omega

theorem forLoop_some (d : List ℚ) (x : ℚ) (n : Nat) (k : Nat) (a : ℚ) :
    (forLoop d (some x) n { i := k, correctedTemp := some a }).correctedTemp
      = some (a + ∑ j ∈ Finset.range n, d.getD (k + j) 0 * x ^ (k + j)) := by
  induction n generalizing k a with
  | zero => simp [forLoop]
  | succ m ih =>
    simp only [forLoop, polyStep, pow_some, fmul, fadd, ih]
    rw [Finset.sum_range_succ']
    congr 1
    have : ∀ j, k + 1 + j = k + (j + 1) := fun j => by omega
    simp only [this]
    simp
    ring

theorem linearizeRun_finite (iT rT : ℚ) :
    linearizeRun (some iT) (some rT) =
      if Vtotal iT rT < 0 then
        forLoop dSubZero (some (Vtotal iT rT)) 10 { i := 0, correctedTemp := some 0 }
      else if Vtotal iT rT < 20.644 then
        forLoop dMid (some (Vtotal iT rT)) 10 { i := 0, correctedTemp := some 0 }
      else if Vtotal iT rT < 54.886 then
        forLoop dHigh (some (Vtotal iT rT)) 10 { i := 0, correctedTemp := some 0 }
      else { i := 0, correctedTemp := NAN } := by
  have h0 : (0.0 : ℚ) = 0 := by norm_num
  have h1 : dSubZero.length = 10 := rfl
  have h2 : dMid.length = 10 := rfl
  have h3 : dHigh.length = 10 := rfl
  simp [linearizeRun, isnan, fsub, fmul, fadd, flt, Vtotal, h0, h1, h2, h3]

theorem polySum_subZero (x : ℚ) :
    (0 : ℚ) + ∑ j ∈ Finset.range 10, dSubZero.getD (0 + j) 0 * x ^ (0 + j)
      = polySum specSubZero x := by
  simp [polySum, specSubZero, dSubZero, Finset.sum_range_succ]
  norm_num

theorem polySum_mid (x : ℚ) :
    (0 : ℚ) + ∑ j ∈ Finset.range 10, dMid.getD (0 + j) 0 * x ^ (0 + j)
      = polySum specMid x := by
  simp [polySum, specMid, dMid, Finset.sum_range_succ]
  norm_num

theorem polySum_high (x : ℚ) :
    (0 : ℚ) + ∑ j ∈ Finset.range 10, dHigh.getD (0 + j) 0 * x ^ (0 + j)
      = polySum specHigh x := by
  simp [polySum, specHigh, dHigh, Finset.sum_range_succ]
  norm_num

/-- What `linearizeCelcius` returns on finite inputs, branch by branch. -/
theorem linearizeCelcius_finite (iT rT : ℚ) :
    linearizeCelcius (some iT) (some rT) =
      if Vtotal iT rT < 0 then some (polySum specSubZero (Vtotal iT rT))
      else if Vtotal iT rT < 20.644 then some (polySum specMid (Vtotal iT rT))
      else if Vtotal iT rT < 54.886 then some (polySum specHigh (Vtotal iT rT))
      else NAN := by
  unfold linearizeCelcius
  rw [linearizeRun_finite]
  split_ifs
  · rw [forLoop_some, polySum_subZero]
  · rw [forLoop_some, polySum_mid]
  · rw [forLoop_some, polySum_high]
  · rfl

/-! ## Fault bits and field decoding -/

/-- C1: for every 32-bit frame `r` with `r & 0x7 != 0`, `decodeCelsius r` is NaN, and
`readError` on an acquired frame `r` returns exactly `r & 0x7`: bit `k` of the result is
bit `k` of the frame for `k < 3` and is clear otherwise, so each of the three fault flags
is reported independently of the other two and of bits 31-3. -/
theorem fault_bits_reported (r : Nat) (hr : r < 2 ^ 32) :
    (r &&& 0x7 ≠ 0 → decodeCelsius r = NAN) ∧
    readError r = r &&& 0x7 ∧
    (∀ k, (readError r).testBit k = (decide (k < 3) && r.testBit k)) := by
  have hmod : r % 2 ^ 32 = r := Nat.mod_eq_of_lt hr
  have hE : readError r = r &&& 0x7 := by
    unfold readError
    rw [hmod, and_7]
    omega
  refine ⟨?_, hE, ?_⟩
  · intro h
    simp only [decodeCelsius, hmod, if_pos h]
  · intro k
    rw [hE, Nat.testBit_and, show (0x7 : Nat) = 2 ^ 3 - 1 from rfl,
      Nat.testBit_two_pow_sub_one, Bool.and_comm]

/-- Instance of C1 at the frame `0x0FA00A05` (open circuit and short to VCC). -/
theorem fault_bits_reported_witness :
    0x0FA00A05 &&& 0x7 ≠ 0 ∧ decodeCelsius 0x0FA00A05 = NAN ∧ readError 0x0FA00A05 = 5 :=
  ⟨by decide, (fault_bits_reported 0x0FA00A05 (by norm_num)).1 (by decide),
    (fault_bits_reported 0x0FA00A05 (by norm_num)).2.1.trans (by decide)⟩

/-- C2 (evaluation of the code): on the all-zero frame `decodeCelsius`, `decodeInternal`
and `readCelsius` return the valid reading 0.0, not NaN; only `readInternal` returns NaN.
The fault flags are 0. -/
theorem all_zero_frame_decodes_to_zero :
    decodeCelsius 0 = some 0 ∧ decodeInternal 0 = some 0 ∧ readCelsius 0 = some 0 ∧
    decodeCelsius 0 ≠ NAN ∧ decodeInternal 0 ≠ NAN ∧
    readInternal 0 = NAN ∧ readError 0 = 0 := by
  have hC : decodeCelsius 0 = some 0 := by
    rw [decodeCelsius_eq 0 (by norm_num) (by norm_num)]
    norm_num
  have hI : decodeInternal 0 = some 0 := by
    rw [decodeInternal_eq 0 (by norm_num) (by norm_num)]
    norm_num
  refine ⟨hC, hI, hC, ?_, ?_, ?_, ?_⟩
  · rw [hC]; simp [NAN]
  · rw [hI]; simp [NAN]
  · simp [readInternal]
  · decide

/-- C3: for every `n` with `-8192 ≤ n ≤ 8191` and every 32-bit frame `r` whose bits 31-18
hold `n` in 14-bit two's complement and whose bits 2-0 are zero, `decodeCelsius r` is
exactly `n * 0.25`, whatever bits 17-3 hold; the frame built from the field alone
round-trips for `n` in {-8192, -1, 0, 1, 1000, 8191}, and field value 1000 gives 250.0. -/
theorem decodeCelsius_field_roundtrip :
    (∀ (n : Int) (r : Nat), -8192 ≤ n → n ≤ 8191 → r < 2 ^ 32 →
        r >>> 18 = (n % 16384).toNat → r &&& 0x7 = 0 →
        decodeCelsius r = some ((n : ℚ) * 0.25)) ∧
    (∀ n ∈ ([-8192, -1, 0, 1, 1000, 8191] : List Int),
        decodeCelsius ((n % 16384).toNat <<< 18) = some ((n : ℚ) * 0.25)) ∧
    decodeCelsius (1000 <<< 18) = some 250.0 := by
  have gen : ∀ (n : Int) (r : Nat), -8192 ≤ n → n ≤ 8191 → r < 2 ^ 32 →
      r >>> 18 = (n % 16384).toNat → r &&& 0x7 = 0 →
      decodeCelsius r = some ((n : ℚ) * 0.25) := by
    intro n r hlo hhi hr hfield hfault
    rw [and_7] at hfault
    rw [Nat.shiftRight_eq_div_pow] at hfield
    norm_num at hfield
    rw [decodeCelsius_eq r hr hfault]
    have hn : (if r < 2 ^ 31 then ((r / 262144 : Nat) : Int)
        else ((r / 262144 : Nat) : Int) - 16384) = n := by
      split <;> omega
    rw [hn]
    norm_num
  have built : ∀ n : Int, -8192 ≤ n → n ≤ 8191 →
      decodeCelsius ((n % 16384).toNat <<< 18) = some ((n : ℚ) * 0.25) := by
    intro n hlo hhi
    have hlt : (n % 16384).toNat < 16384 := by omega
    apply gen n _ hlo hhi
    · rw [Nat.shiftLeft_eq]; norm_num; omega
    · rw [Nat.shiftLeft_eq, Nat.shiftRight_eq_div_pow]; norm_num
    · rw [Nat.shiftLeft_eq, and_7]; norm_num; omega
  refine ⟨gen, ?_, ?_⟩
  · intro n hn
    simp only [List.mem_cons, List.mem_singleton, List.not_mem_nil, or_false] at hn
    apply built n <;> omega
  · have h := built 1000 (by norm_num) (by norm_num)
    norm_num at h ⊢
    exact h

/-- Instance of C3 at `n = -1` with every bit 17-3 set: the frame `0xFFFFFFF8`. -/
theorem decodeCelsius_field_roundtrip_witness :
    decodeCelsius 0xFFFFFFF8 = some (((-1 : Int) : ℚ) * 0.25) :=
  decodeCelsius_field_roundtrip.1 (-1) 0xFFFFFFF8 (by decide) (by decide) (by decide)
    (by decide) (by decide)

/-- C4: for every `n` with `-2048 ≤ n ≤ 2047` and every 32-bit frame `r` whose bits 15-4
hold `n` in 12-bit two's complement and whose bits 2-0 are zero, `decodeInternal r` is
exactly `n * 0.0625`, whatever bits 31-16 and bit 3 hold; the frame built from the field
alone round-trips for `n` in {-2048, -1, 0, 1, 500, 2047}, and field value 160 gives
10.0. -/
theorem decodeInternal_field_roundtrip :
    (∀ (n : Int) (r : Nat), -2048 ≤ n → n ≤ 2047 → r < 2 ^ 32 →
        (r >>> 4) &&& 0xFFF = (n % 4096).toNat → r &&& 0x7 = 0 →
        decodeInternal r = some ((n : ℚ) * 0.0625)) ∧
    (∀ n ∈ ([-2048, -1, 0, 1, 500, 2047] : List Int),
        decodeInternal ((n % 4096).toNat <<< 4) = some ((n : ℚ) * 0.0625)) ∧
    decodeInternal (160 <<< 4) = some 10.0 := by
  have gen : ∀ (n : Int) (r : Nat), -2048 ≤ n → n ≤ 2047 → r < 2 ^ 32 →
      (r >>> 4) &&& 0xFFF = (n % 4096).toNat → r &&& 0x7 = 0 →
      decodeInternal r = some ((n : ℚ) * 0.0625) := by
    intro n r hlo hhi hr hfield hfault
    rw [and_7] at hfault
    rw [Nat.shiftRight_eq_div_pow, show (0xFFF : Nat) = 2 ^ 12 - 1 from rfl,
      Nat.and_pow_two_sub_one_eq_mod] at hfield
    norm_num at hfield
    rw [decodeInternal_eq r hr hfault]
    have hn : (if r / 16 % 4096 < 2048 then ((r / 16 % 4096 : Nat) : Int)
        else ((r / 16 % 4096 : Nat) : Int) - 4096) = n := by
      split <;> omega
    rw [hn]
    norm_num
  have built : ∀ n : Int, -2048 ≤ n → n ≤ 2047 →
      decodeInternal ((n % 4096).toNat <<< 4) = some ((n : ℚ) * 0.0625) := by
    intro n hlo hhi
    have hlt : (n % 4096).toNat < 4096 := by omega
    apply gen n _ hlo hhi
    · rw [Nat.shiftLeft_eq]; norm_num; omega
    · rw [Nat.shiftLeft_eq, Nat.shiftRight_eq_div_pow, show (0xFFF : Nat) = 2 ^ 12 - 1 from rfl,
        Nat.and_pow_two_sub_one_eq_mod]
      norm_num
      omega
    · rw [Nat.shiftLeft_eq, and_7]; norm_num; omega
  refine ⟨gen, ?_, ?_⟩
  · intro n hn
    simp only [List.mem_cons, List.mem_singleton, List.not_mem_nil, or_false] at hn
    apply built n <;> omega
  · have h := built 160 (by norm_num) (by norm_num)
    norm_num at h ⊢
    exact h

/-- Instance of C4 at `n = -1` with every bit 31-16 and bit 3 set: `0xFFFFFFF8`. -/
theorem decodeInternal_field_roundtrip_witness :
    decodeInternal 0xFFFFFFF8 = some (((-1 : Int) : ℚ) * 0.0625) :=
  decodeInternal_field_roundtrip.1 (-1) 0xFFFFFFF8 (by decide) (by decide) (by decide)
    (by decide) (by decide)

/-- C5 (counterexample): the non-zero frame `0x0FA00A01` carries internal field 160 and
has bit 0 set; `decodeInternal` and `readInternal` return NaN on it, not `160 * 0.0625`,
and not the value 10.0 obtained for the same frame with bits 2-0 cleared. -/
theorem decodeInternal_fault_counterexample :
    (0x0FA00A01 : Nat) ≠ 0 ∧ (0x0FA00A01 >>> 4) &&& 0xFFF = 160 ∧
    decodeInternal 0x0FA00A01 = NAN ∧ readInternal 0x0FA00A01 = NAN ∧
    decodeInternal 0x0FA00A01 ≠ some ((160 : ℚ) * 0.0625) ∧
    decodeInternal 0x0FA00A00 = some 10 ∧
    decodeInternal 0x0FA00A01 ≠ decodeInternal 0x0FA00A00 := by
  have h1 : (0x0FA00A01 : Nat) % 2 ^ 32 &&& 0x7 ≠ 0 := by decide
  have hN : decodeInternal 0x0FA00A01 = NAN := by
    simp only [decodeInternal, if_pos h1]
  have hR : readInternal 0x0FA00A01 = NAN := by
    simp only [readInternal, if_pos (Or.inl h1)]
  have hV : decodeInternal 0x0FA00A00 = some 10 := by
    rw [decodeInternal_eq _ (by norm_num) (by norm_num)]
    norm_num
  refine ⟨by decide, by decide, hN, hR, ?_, hV, ?_⟩
  · rw [hN]; simp [NAN]
  · rw [hN, hV]; simp [NAN]

/-- C5 (amended): the fault bits gate internal-temperature decoding.  For every 32-bit
frame `r` with any of bits 2-0 set, `decodeInternal r` and `readInternal` on acquired
frame `r` are NaN; for every non-zero frame `r` with bits 2-0 clear both equal
`n * 0.0625`, where `n` is the 12-bit two's-complement value of bits 15-4. -/
theorem decodeInternal_gated_by_fault_bits (r : Nat) (hr : r < 2 ^ 32) :
    (r &&& 0x7 ≠ 0 → decodeInternal r = NAN ∧ readInternal r = NAN) ∧
    (r &&& 0x7 = 0 → r ≠ 0 → ∀ n : Int, -2048 ≤ n → n ≤ 2047 →
        (r >>> 4) &&& 0xFFF = (n % 4096).toNat →
        decodeInternal r = some ((n : ℚ) * 0.0625) ∧
        readInternal r = some ((n : ℚ) * 0.0625)) := by
  have hmod : r % 2 ^ 32 = r := Nat.mod_eq_of_lt hr
  constructor
  · intro h
    constructor
    · simp only [decodeInternal, hmod, if_pos h]
    · simp only [readInternal, hmod, if_pos (Or.inl h)]
  · intro h7 h0 n hlo hhi hfield
    have hD : readInternal r = decodeInternal r := by
      have hg : ¬ (r &&& 0x7 ≠ 0 ∨ r = 0x0) := by
        rintro (h | h)
        · exact h h7
        · exact h0 h
      have hg2 : ¬ (r &&& 0x7 ≠ 0) := fun h => h h7
      simp only [readInternal, decodeInternal, hmod, if_neg hg, if_neg hg2]
    have hI : decodeInternal r = some ((n : ℚ) * 0.0625) := by
      rw [and_7] at h7
      rw [Nat.shiftRight_eq_div_pow, show (0xFFF : Nat) = 2 ^ 12 - 1 from rfl,
        Nat.and_pow_two_sub_one_eq_mod] at hfield
      norm_num at hfield
      rw [decodeInternal_eq r hr h7]
      have hn : (if r / 16 % 4096 < 2048 then ((r / 16 % 4096 : Nat) : Int)
          else ((r / 16 % 4096 : Nat) : Int) - 4096) = n := by
        split <;> omega
      rw [hn]
      norm_num
    exact ⟨hI, hD.trans hI⟩

/-- Instances of the amended C5: the fault frame `0x0FA00A01` gives NaN, the clean frame
`0x0FA00A00` (internal field 160) gives `160 * 0.0625` on both paths. -/
theorem decodeInternal_gated_by_fault_bits_witness :
    (decodeInternal 0x0FA00A01 = NAN ∧ readInternal 0x0FA00A01 = NAN) ∧
    (decodeInternal 0x0FA00A00 = some (((160 : Int) : ℚ) * 0.0625) ∧
      readInternal 0x0FA00A00 = some (((160 : Int) : ℚ) * 0.0625)) :=
  ⟨(decodeInternal_gated_by_fault_bits 0x0FA00A01 (by norm_num)).1 (by decide),
   (decodeInternal_gated_by_fault_bits 0x0FA00A00 (by norm_num)).2 (by decide) (by decide)
      160 (by decide) (by decide) (by decide)⟩

/-! ## Linearization -/

/-- C8: if `internalTemp` is NaN, or `rawTemp` is NaN, or both, `linearizeCelcius`
returns NaN and the array counter `i` is still 0 on return, that is no pass of any of the
three coefficient loops was made (a loop that is entered leaves `i = 10`). -/
theorem linearizeCelcius_nan_input (internalTemp rawTemp : Dbl)
    (h : internalTemp = NAN ∨ rawTemp = NAN) :
    linearizeCelcius internalTemp rawTemp = NAN ∧
    (linearizeRun internalTemp rawTemp).i = 0 ∧
    (∀ (V : Dbl) (s : LinearizeState), s.i = 0 →
      (forLoop dSubZero V dSubZero.length s).i = 10 ∧
      (forLoop dMid V dMid.length s).i = 10 ∧
      (forLoop dHigh V dHigh.length s).i = 10) := by
  refine ⟨?_, ?_, ?_⟩
  · rcases h with h | h
    · subst h
      cases rawTemp <;>
        simp [linearizeCelcius, linearizeRun, NAN, isnan, fsub, fmul, fadd, flt]
    · subst h
      simp [linearizeCelcius, linearizeRun, NAN, isnan]
  · rcases h with h | h
    · subst h
      cases rawTemp <;>
        simp [linearizeRun, NAN, isnan, fsub, fmul, fadd, flt]
    · subst h
      simp [linearizeRun, NAN, isnan]
  · intro V s hs
    simp only [forLoop_i, hs]
    exact ⟨rfl, rfl, rfl⟩

/-- Instances of C8: NaN cold junction with a valid reading, and NaN reading with a valid
cold junction. -/
theorem linearizeCelcius_nan_input_witness :
    (linearizeCelcius NAN (some 250) = NAN ∧ (linearizeRun NAN (some 250)).i = 0) ∧
    (linearizeCelcius (some 10) NAN = NAN ∧ (linearizeRun (some 10) NAN).i = 0) :=
  ⟨⟨(linearizeCelcius_nan_input NAN (some 250) (Or.inl rfl)).1,
    (linearizeCelcius_nan_input NAN (some 250) (Or.inl rfl)).2.1⟩,
   ⟨(linearizeCelcius_nan_input (some 10) NAN (Or.inr rfl)).1,
    (linearizeCelcius_nan_input (some 10) NAN (Or.inr rfl)).2.1⟩⟩

/-- C9 (counterexample): for the frame `0x0FA00A00` the linearized value is the 10-term
polynomial at `Vtotal = 10.31354`, and it is not within 1.0 of 250.0. -/
theorem linearize_scenario_counterexample :
    linearizeCelcius (decodeInternal 0x0FA00A00) (decodeCelsius 0x0FA00A00)
      = some (polySum specMid 10.31354) ∧
    ¬ (|polySum specMid 10.31354 - 250.0| < 1.0) := by
  have hC : decodeCelsius 0x0FA00A00 = some 250 := by
    rw [decodeCelsius_eq _ (by norm_num) (by norm_num)]
    norm_num
  have hI : decodeInternal 0x0FA00A00 = some 10 := by
    rw [decodeInternal_eq _ (by norm_num) (by norm_num)]
    norm_num
  have hV : Vtotal 10 250 = 10.31354 := by norm_num [Vtotal]
  constructor
  · rw [hC, hI, linearizeCelcius_finite, hV]
    norm_num
  · have hval : (253.9 : ℚ) < polySum specMid 10.31354 := by
      simp [polySum, specMid, Finset.sum_range_succ]
      norm_num
    rw [abs_of_pos (by linarith)]
    norm_num
    linarith

/-- C9 (amended): for the frame `0x0FA00A00` (thermocouple field 1000, internal field 160,
no fault bits) `decodeCelsius` gives 250.0 and `decodeInternal` gives 10.0;
`linearizeCelcius(10.0, 250.0)` has `Vtotal = 10.31354`, takes the `0 ≤ Vtotal < 20.644`
branch, and returns a value that is not 250.0 and lies between 3.9 and 4.0 degrees above
it (so within 4.0 of 250.0), in exact arithmetic. -/
theorem linearize_scenario :
    decodeCelsius 0x0FA00A00 = some 250.0 ∧ decodeInternal 0x0FA00A00 = some 10.0 ∧
    Vtotal 10.0 250.0 = 10.31354 ∧ 0 ≤ Vtotal 10.0 250.0 ∧ Vtotal 10.0 250.0 < 20.644 ∧
    linearizeCelcius (some 10.0) (some 250.0) = some (polySum specMid (Vtotal 10.0 250.0)) ∧
    linearizeCelcius (some 10.0) (some 250.0) ≠ some 250.0 ∧
    250.0 + 3.9 < polySum specMid (Vtotal 10.0 250.0) ∧
    polySum specMid (Vtotal 10.0 250.0) < 250.0 + 4.0 ∧
    |polySum specMid (Vtotal 10.0 250.0) - 250.0| < 4.0 := by
  have hC : decodeCelsius 0x0FA00A00 = some 250.0 := by
    rw [decodeCelsius_eq _ (by norm_num) (by norm_num)]
    norm_num
  have hI : decodeInternal 0x0FA00A00 = some 10.0 := by
    rw [decodeInternal_eq _ (by norm_num) (by norm_num)]
    norm_num
  have hV : Vtotal 10.0 250.0 = 10.31354 := by norm_num [Vtotal]
  have hlo : (250.0 : ℚ) + 3.9 < polySum specMid 10.31354 := by
    simp [polySum, specMid, Finset.sum_range_succ]
    norm_num
  have hhi : polySum specMid 10.31354 < (250.0 : ℚ) + 4.0 := by
    simp [polySum, specMid, Finset.sum_range_succ]
    norm_num
  have hL : linearizeCelcius (some 10.0) (some 250.0)
      = some (polySum specMid (Vtotal 10.0 250.0)) := by
    rw [linearizeCelcius_finite, hV]
    norm_num
  refine ⟨hC, hI, hV, ?_, ?_, hL, ?_, ?_, ?_, ?_⟩
  · rw [hV]; norm_num
  · rw [hV]; norm_num
  · rw [hL, hV]
    intro h
    have h2 := Option.some.inj h
    rw [h2] at hlo
    norm_num at hlo
  · rw [hV]; exact hlo
  · rw [hV]; exact hhi
  · rw [hV, abs_lt]
    constructor <;> linarith

/-! ## Acquisition -/

theorem shl1_or (d : Nat) (b : Bool) (hd : d < 2 ^ 31) :
    (if b then (d <<< 1) % 2 ^ 32 ||| 1 else (d <<< 1) % 2 ^ 32) = 2 * d + b.toNat := by
  have h1 : (d <<< 1) % 2 ^ 32 = 2 * d := by
    rw [Nat.shiftLeft_eq]
    omega
  rw [h1]
  cases b
  · simp
  · have h := @Nat.mul_add_lt_is_or 1 1 (by norm_num) d
    norm_num at h
    simp [h]

theorem softwareLoop_eq (bus : Bus) (n m d : Nat) (hm : m + n = 32) (hd : d < 2 ^ m) :
    softwareLoop bus n d
      = d * 2 ^ n + ∑ i ∈ Finset.range n, (bus.digitalRead (31 - i)).toNat * 2 ^ i := by
  induction n generalizing m d with
  | zero => simp [softwareLoop]
  | succ k ih =>
    have hle : 2 ^ m ≤ 2 ^ 31 := Nat.pow_le_pow_right (by norm_num) (by omega)
    have hstep := shl1_or d (bus.digitalRead (31 - k)) (by omega)
    have hb : (bus.digitalRead (31 - k)).toNat ≤ 1 := Bool.toNat_le _
    simp only [softwareLoop, hstep]
    rw [ih (m + 1) _ (by omega) (by rw [pow_succ]; omega), Finset.sum_range_succ]
    ring

theorem byte_bits (n B : Nat) (hB : B < 2 ^ n) :
    ∑ j ∈ Finset.range n, (B.testBit j).toNat * 2 ^ j = B := by
  induction n generalizing B with
  | zero =>
    have : B = 0 := by simpa using hB
    simp [this]
  | succ k ih =>
    rw [Finset.sum_range_succ']
    have h2 : B / 2 < 2 ^ k := by
      rw [pow_succ] at hB
      omega
    have hrec := ih (B / 2) h2
    have hs : ∀ j, (B.testBit (j + 1)).toNat * 2 ^ (j + 1)
        = 2 * (((B / 2).testBit j).toNat * 2 ^ j) := by
      intro j
      rw [Nat.testBit_succ, pow_succ]
      ring
    simp only [hs, ← Finset.mul_sum, hrec]
    have h0 : (B.testBit 0).toNat = B % 2 := by
      rw [Nat.testBit_zero]
      rcases Nat.mod_two_eq_zero_or_one B with h | h <;> simp [h]
    rw [h0]
    omega

theorem spiread32Hardware_eq (bus : Bus) :
    spiread32Hardware bus
      = bus.transfer 0 % 256 * 2 ^ 24 + bus.transfer 1 % 256 * 2 ^ 16
        + bus.transfer 2 % 256 * 2 ^ 8 + bus.transfer 3 % 256 := by
  have or8 : ∀ a b : Nat, b < 2 ^ 8 → 2 ^ 8 * a ||| b = 2 ^ 8 * a + b :=
    fun a b hb => (@Nat.mul_add_lt_is_or 8 b hb a).symm
  have shl8 : ∀ a : Nat, a < 2 ^ 24 → (a <<< 8) % 2 ^ 32 = 2 ^ 8 * a := by
    intro a ha
    rw [Nat.shiftLeft_eq]
    omega
  have e1 := shl8 (bus.transfer 0 % 2 ^ 8) (by omega)
  have e2 := or8 (bus.transfer 0 % 2 ^ 8) (bus.transfer 1 % 2 ^ 8) (by omega)
  have e3 := shl8 (2 ^ 8 * (bus.transfer 0 % 2 ^ 8) + bus.transfer 1 % 2 ^ 8) (by omega)
  have e4 := or8 (2 ^ 8 * (bus.transfer 0 % 2 ^ 8) + bus.transfer 1 % 2 ^ 8)
    (bus.transfer 2 % 2 ^ 8) (by omega)
  have e5 := shl8 (2 ^ 8 * (2 ^ 8 * (bus.transfer 0 % 2 ^ 8) + bus.transfer 1 % 2 ^ 8)
    + bus.transfer 2 % 2 ^ 8) (by omega)
  have e6 := or8 (2 ^ 8 * (2 ^ 8 * (bus.transfer 0 % 2 ^ 8) + bus.transfer 1 % 2 ^ 8)
    + bus.transfer 2 % 2 ^ 8) (bus.transfer 3 % 2 ^ 8) (by omega)
  simp only [spiread32Hardware, e1, e2, e3, e4, e5, e6]
  omega

/-- C11: for every acquired 32-bit frame `f`, `readRaw` does no decoding: it returns `f`
itself when `f & 0x7 = 0`, and 0 when `f` is a fault frame (`f & 0x7 != 0`). -/
theorem readRaw_no_decoding (f : Nat) (hf : f < 2 ^ 32) :
    (f &&& 0x7 = 0 → readRaw f = f) ∧ (f &&& 0x7 ≠ 0 → readRaw f = 0) := by
  have hmod : f % 2 ^ 32 = f := Nat.mod_eq_of_lt hf
  constructor
  · intro h
    by_cases h0 : f = 0
    · subst h0
      simp [readRaw]
    · have hg : ¬ (f &&& 0x7 ≠ 0 ∨ f = 0x0) := by
        rintro (h1 | h1)
        · exact h1 h
        · exact h0 h1
      simp only [readRaw, hmod, if_neg hg]
  · intro h
    simp only [readRaw, hmod, if_pos (Or.inl h)]

/-- Instances of C11: the clean frame `0x0FA00A00` comes back unchanged, the all-zero
frame comes back as itself, the fault frame `0x0FA00A01` comes back as 0. -/
theorem readRaw_no_decoding_witness :
    readRaw 0x0FA00A00 = 0x0FA00A00 ∧ readRaw 0 = 0 ∧ readRaw 0x0FA00A01 = 0 :=
  ⟨(readRaw_no_decoding 0x0FA00A00 (by norm_num)).1 (by decide),
   (readRaw_no_decoding 0 (by norm_num)).1 (by decide),
   (readRaw_no_decoding 0x0FA00A01 (by norm_num)).2 (by decide)⟩

/-- Where `decodeInternal` after `readRaw` does agree with `readInternal`: on the non-zero
frames without fault bits. -/
theorem decodeInternal_readRaw_clean (f : Nat) (hf : f < 2 ^ 32) (h7 : f &&& 0x7 = 0)
    (h0 : f ≠ 0) : decodeInternal (readRaw f) = readInternal f := by
  have hmod : f % 2 ^ 32 = f := Nat.mod_eq_of_lt hf
  have hg : ¬ (f &&& 0x7 ≠ 0 ∨ f = 0x0) := by
    rintro (h1 | h1)
    · exact h1 h7
    · exact h0 h1
  have hg2 : ¬ (f &&& 0x7 ≠ 0) := fun h => h h7
  simp only [readRaw, readInternal, decodeInternal, hmod, if_neg hg, if_neg hg2]

/-- C12 (evaluation of the code): on the fault frame `0x0FA00A01` `readRaw` returns 0 and
`decodeInternal` of that is the valid reading 0.0, while `readInternal` on the same frame
is NaN; the same happens on the all-zero frame. -/
theorem decodeInternal_readRaw_differs :
    readRaw 0x0FA00A01 = 0 ∧ decodeInternal (readRaw 0x0FA00A01) = some 0 ∧
    readInternal 0x0FA00A01 = NAN ∧
    decodeInternal (readRaw 0x0FA00A01) ≠ readInternal 0x0FA00A01 ∧
    decodeInternal (readRaw 0) = some 0 ∧ readInternal 0 = NAN ∧
    decodeInternal (readRaw 0) ≠ readInternal 0 := by
  have hI : decodeInternal 0 = some 0 := by
    rw [decodeInternal_eq 0 (by norm_num) (by norm_num)]
    norm_num
  have h1 : (0x0FA00A01 : Nat) % 2 ^ 32 &&& 0x7 ≠ 0 := by decide
  have hR : readRaw 0x0FA00A01 = 0 := by
    simp only [readRaw, if_pos (Or.inl h1)]
  have hR0 : readRaw 0 = 0 := by simp [readRaw]
  have hN : readInternal 0x0FA00A01 = NAN := by
    simp only [readInternal, if_pos (Or.inl h1)]
  have hN0 : readInternal 0 = NAN := by simp [readInternal]
  refine ⟨hR, ?_, hN, ?_, ?_, hN0, ?_⟩
  · rw [hR, hI]
  · rw [hR, hI, hN]; simp [NAN]
  · rw [hR0, hI]
  · rw [hR0, hI, hN0]; simp [NAN]

/-- C13: for every 32-bit frame `r` with bits 2-0 zero, `decodeCelsius r` is an integer
multiple of 0.25 in the closed range [-2048, 2047.75] and `decodeInternal r` is an integer
multiple of 0.0625 in the closed range [-128, 127.9375]; the four bounds are attained, at
the frames `0x80000000`, `0x7FFC0000`, `0x00008000` and `0x00007FF0`. -/
theorem decode_ranges :
    (∀ r : Nat, r < 2 ^ 32 → r &&& 0x7 = 0 →
      (∃ n : Int, decodeCelsius r = some ((n : ℚ) * 0.25) ∧
        (-2048 : ℚ) ≤ (n : ℚ) * 0.25 ∧ (n : ℚ) * 0.25 ≤ 2047.75) ∧
      (∃ m : Int, decodeInternal r = some ((m : ℚ) * 0.0625) ∧
        (-128 : ℚ) ≤ (m : ℚ) * 0.0625 ∧ (m : ℚ) * 0.0625 ≤ 127.9375)) ∧
    decodeCelsius 0x80000000 = some (-2048) ∧ decodeCelsius 0x7FFC0000 = some 2047.75 ∧
    decodeInternal 0x00008000 = some (-128) ∧ decodeInternal 0x00007FF0 = some 127.9375 := by
  refine ⟨?_, ?_, ?_, ?_, ?_⟩
  · intro r hr h7
    rw [and_7] at h7
    have hC : ∃ n : Int, -8192 ≤ n ∧ n ≤ 8191 ∧
        decodeCelsius r = some ((n : ℚ) * (1 / 4)) :=
      ⟨_, by split <;> omega, by split <;> omega, decodeCelsius_eq r hr h7⟩
    have hI : ∃ m : Int, -2048 ≤ m ∧ m ≤ 2047 ∧
        decodeInternal r = some ((m : ℚ) * (1 / 16)) :=
      ⟨_, by split <;> omega, by split <;> omega, decodeInternal_eq r hr h7⟩
    obtain ⟨n, hnlo, hnhi, hn⟩ := hC
    obtain ⟨m, hmlo, hmhi, hm⟩ := hI
    have h1 : ((-8192 : Int) : ℚ) ≤ (n : ℚ) := Int.cast_le.mpr hnlo
    have h2 : (n : ℚ) ≤ ((8191 : Int) : ℚ) := Int.cast_le.mpr hnhi
    have h3 : ((-2048 : Int) : ℚ) ≤ (m : ℚ) := Int.cast_le.mpr hmlo
    have h4 : (m : ℚ) ≤ ((2047 : Int) : ℚ) := Int.cast_le.mpr hmhi
    push_cast at h1 h2 h3 h4
    constructor
    · refine ⟨n, ?_, ?_, ?_⟩
      · rw [hn]; norm_num
      · norm_num; linarith
      · norm_num; linarith
    · refine ⟨m, ?_, ?_, ?_⟩
      · rw [hm]; norm_num
      · norm_num; linarith
      · norm_num; linarith
  · rw [decodeCelsius_eq _ (by norm_num) (by norm_num)]
    norm_num
  · rw [decodeCelsius_eq _ (by norm_num) (by norm_num)]
    norm_num
  · rw [decodeInternal_eq _ (by norm_num) (by norm_num)]
    norm_num
  · rw [decodeInternal_eq _ (by norm_num) (by norm_num)]
    norm_num

/-- Instance of C13 at the frame `0xFFFFFFF8` (every bit 31-3 set). -/
theorem decode_ranges_witness :
    (∃ n : Int, decodeCelsius 0xFFFFFFF8 = some ((n : ℚ) * 0.25) ∧
      (-2048 : ℚ) ≤ (n : ℚ) * 0.25 ∧ (n : ℚ) * 0.25 ≤ 2047.75) ∧
    (∃ m : Int, decodeInternal 0xFFFFFFF8 = some ((m : ℚ) * 0.0625) ∧
      (-128 : ℚ) ≤ (m : ℚ) * 0.0625 ∧ (m : ℚ) * 0.0625 ≤ 127.9375) :=
  decode_ranges.1 0xFFFFFFF8 (by decide) (by decide)

/-- C14: `spiread32` returns the 32 transferred bits most-significant first on both
transports.  On the software path (`sclk` other than -1) the result is `Σ bᵢ · 2^i`, where
`b₃₁, b₃₀, ..., b₀` are the data-line samples in sampling order (`bᵢ` is sample number
`31 - i`); on the hardware path it is `B0·2^24 + B1·2^16 + B2·2^8 + B3` for the four
transferred bytes in transfer order; and the two paths return the same frame when sample
number `k` is bit `7 - k % 8` of byte number `k / 8`, that is when the samples are the
bits of `B0..B3` taken most-significant first. -/
theorem spiread32_msb_first (bus : Bus) (sclk : Int) (hs : sclk ≠ -1) :
    spiread32 sclk bus
      = ∑ i ∈ Finset.range 32, (bus.digitalRead (31 - i)).toNat * 2 ^ i ∧
    ((∀ k < 4, bus.transfer k < 256) →
      spiread32 (-1) bus
        = bus.transfer 0 * 2 ^ 24 + bus.transfer 1 * 2 ^ 16 + bus.transfer 2 * 2 ^ 8
          + bus.transfer 3 ∧
      ((∀ k < 32, bus.digitalRead k = (bus.transfer (k / 8)).testBit (7 - k % 8)) →
        spiread32 sclk bus = spiread32 (-1) bus)) := by
  have hsoft : spiread32 sclk bus
      = ∑ i ∈ Finset.range 32, (bus.digitalRead (31 - i)).toNat * 2 ^ i := by
    simp only [spiread32, if_neg hs]
    rw [softwareLoop_eq bus 32 0 0 (by norm_num) (by norm_num)]
    simp
  refine ⟨hsoft, ?_⟩
  intro hB
  have hhard : spiread32 (-1) bus
      = bus.transfer 0 * 2 ^ 24 + bus.transfer 1 * 2 ^ 16 + bus.transfer 2 * 2 ^ 8
        + bus.transfer 3 := by
    have h0 := hB 0 (by norm_num)
    have h1 := hB 1 (by norm_num)
    have h2 := hB 2 (by norm_num)
    have h3 := hB 3 (by norm_num)
    simp only [spiread32, if_true]
    rw [spiread32Hardware_eq, Nat.mod_eq_of_lt h0, Nat.mod_eq_of_lt h1, Nat.mod_eq_of_lt h2,
      Nat.mod_eq_of_lt h3]
  refine ⟨hhard, ?_⟩
  intro hbits
  rw [hsoft, hhard]
  have hterm : ∀ i ∈ Finset.range 32, (bus.digitalRead (31 - i)).toNat * 2 ^ i
      = ((bus.transfer (3 - i / 8)).testBit (i % 8)).toNat * 2 ^ i := by
    intro i hi
    have hi32 : i < 32 := Finset.mem_range.mp hi
    rw [hbits (31 - i) (by omega)]
    have ha : (31 - i) / 8 = 3 - i / 8 := by omega
    have hb : 7 - (31 - i) % 8 = i % 8 := by omega
    rw [ha, hb]
  rw [Finset.sum_congr rfl hterm]
  have e0 := byte_bits 8 (bus.transfer 0) (by norm_num; exact hB 0 (by norm_num))
  have e1 := byte_bits 8 (bus.transfer 1) (by norm_num; exact hB 1 (by norm_num))
  have e2 := byte_bits 8 (bus.transfer 2) (by norm_num; exact hB 2 (by norm_num))
  have e3 := byte_bits 8 (bus.transfer 3) (by norm_num; exact hB 3 (by norm_num))
  simp only [Finset.sum_range_succ, Finset.sum_range_zero] at e0 e1 e2 e3 ⊢
  norm_num at e0 e1 e2 e3 ⊢
  omega

/-- Instance of C14 on a transaction carrying `0x0FA00A00`, clock pin 13 for the software
path: both paths return that frame. -/
theorem spiread32_msb_first_witness :
    spiread32 (-1) sampleBus = 0x0FA00A00 ∧ spiread32 13 sampleBus = spiread32 (-1) sampleBus :=
  ⟨((spiread32_msb_first sampleBus 13 (by decide)).2 (by decide)).1.trans (by decide),
   ((spiread32_msb_first sampleBus 13 (by decide)).2 (by decide)).2 (by decide)⟩

/-- C15: for every acquired 32-bit frame `f`, the value `w` returned by `readRaw` has bits
2-0 clear, so `decodeCelsius w` and `decodeInternal w` are never NaN; for every fault
frame (`f & 0x7 != 0`) `w = 0` and both decode to exactly 0.0, that is the fault becomes a
reading of 0 degrees on the `readRaw`-then-decode path. -/
theorem readRaw_then_decode (f : Nat) (hf : f < 2 ^ 32) :
    readRaw f &&& 0x7 = 0 ∧
    decodeCelsius (readRaw f) ≠ NAN ∧ decodeInternal (readRaw f) ≠ NAN ∧
    (f &&& 0x7 ≠ 0 →
      readRaw f = 0 ∧ decodeCelsius (readRaw f) = some 0.0 ∧
      decodeInternal (readRaw f) = some 0.0) := by
  have hmod : f % 2 ^ 32 = f := Nat.mod_eq_of_lt hf
  have hC0 : decodeCelsius 0 = some 0.0 := by
    rw [decodeCelsius_eq 0 (by norm_num) (by norm_num)]
    norm_num
  have hI0 : decodeInternal 0 = some 0.0 := by
    rw [decodeInternal_eq 0 (by norm_num) (by norm_num)]
    norm_num
  have hdef : readRaw f = if f &&& 0x7 ≠ 0 ∨ f = 0x0 then 0 else f := by
    simp only [readRaw, hmod]
  have hlt : readRaw f < 2 ^ 32 := by
    rw [hdef]
    split
    · norm_num
    · exact hf
  have h7 : readRaw f &&& 0x7 = 0 := by
    rw [hdef]
    split
    · rfl
    · rename_i hg
      by_contra hne
      exact hg (Or.inl hne)
  have h8 : readRaw f % 8 = 0 := by
    rw [← and_7]
    exact h7
  refine ⟨h7, ?_, ?_, ?_⟩
  · rw [decodeCelsius_eq _ hlt h8]
    simp [NAN]
  · rw [decodeInternal_eq _ hlt h8]
    simp [NAN]
  · intro h
    have hR : readRaw f = 0 := by
      simp only [readRaw, hmod, if_pos (Or.inl h)]
    rw [hR]
    exact ⟨rfl, hC0, hI0⟩

/-- Instance of C15 at the fault frame `0x0FA00A01`. -/
theorem readRaw_then_decode_witness :
    readRaw 0x0FA00A01 = 0 ∧ decodeCelsius (readRaw 0x0FA00A01) = some 0.0 ∧
    decodeInternal (readRaw 0x0FA00A01) = some 0.0 :=
  (readRaw_then_decode 0x0FA00A01 (by norm_num)).2.2.2 (by decide)

/-! ## Rounding lemmas -/

theorem roundEven_err (q : ℚ) : |(roundEven q : ℚ) - q| ≤ 1 / 2 := by
  have h1 : (⌊q⌋ : ℚ) ≤ q := Int.floor_le q
  have h2 : q < ⌊q⌋ + 1 := Int.lt_floor_add_one q
  unfold roundEven
  rw [abs_le]
  split_ifs with ha hb hc
  · constructor <;> linarith
  · push_cast
    constructor <;> linarith
  · constructor <;> linarith
  · push_cast
    constructor <;> linarith

theorem roundEven_le (q : ℚ) (N : Int) (h : q ≤ N) : roundEven q ≤ N := by
  have he := (abs_le.mp (roundEven_err q)).2
  have h1 : (roundEven q : ℚ) < (N : ℚ) + 1 := by linarith
  have h2 : roundEven q < N + 1 := by exact_mod_cast h1
  omega

theorem roundEven_ge (q : ℚ) (N : Int) (h : (N : ℚ) ≤ q) : N ≤ roundEven q := by
  have he := (abs_le.mp (roundEven_err q)).1
  have h1 : (N : ℚ) - 1 < (roundEven q : ℚ) := by linarith
  have h2 : N - 1 < roundEven q := by exact_mod_cast h1
  omega

theorem roundEven_eq (q : ℚ) (n : Int) (h : |q - n| < 1 / 2) : roundEven q = n := by
  have he := abs_le.mp (roundEven_err q)
  have hn := abs_lt.mp h
  have h1 : (roundEven q : ℚ) < (n : ℚ) + 1 := by linarith
  have h2 : (n : ℚ) - 1 < (roundEven q : ℚ) := by linarith
  have h3 : roundEven q < n + 1 := by exact_mod_cast h1
  have h4 : n - 1 < roundEven q := by exact_mod_cast h2
  omega

theorem roundEven_intCast (n : Int) : roundEven (n : ℚ) = n :=
  roundEven_eq _ n (by simp)

theorem two_zpow_pos (k : Int) : (0 : ℚ) < 2 ^ k := zpow_pos (by norm_num) k

theorem ulpOf_pos (F : Format) (x : ℚ) : 0 < ulpOf F x := two_zpow_pos _

theorem log_le_of_abs_lt (x : ℚ) (hx : x ≠ 0) (k : Int) (h : |x| < 2 ^ (k + 1)) :
    Int.log 2 |x| ≤ k := by
  have hpos : 0 < |x| := abs_pos.mpr hx
  have h2 : |x| < ((2 : Nat) : ℚ) ^ (k + 1) := by exact_mod_cast h
  have := (@Int.lt_zpow_iff_log_lt ℚ _ _ 2 (by norm_num) (k + 1) |x| hpos).mp h2
  omega

theorem le_log_of_le_abs (x : ℚ) (hx : x ≠ 0) (k : Int) (h : 2 ^ k ≤ |x|) :
    k ≤ Int.log 2 |x| := by
  have hpos : 0 < |x| := abs_pos.mpr hx
  have h2 : ((2 : Nat) : ℚ) ^ k ≤ |x| := by exact_mod_cast h
  exact (@Int.zpow_le_iff_le_log ℚ _ _ 2 (by norm_num) k |x| hpos).mp h2

theorem zpow_log_le_abs (x : ℚ) (hx : x ≠ 0) : (2 : ℚ) ^ Int.log 2 |x| ≤ |x| := by
  have h := @Int.zpow_log_le_self ℚ _ _ 2 |x| (by norm_num) (abs_pos.mpr hx)
  exact_mod_cast h

/-- A power of two with a non-negative exponent is the cast of an integer. -/
theorem two_zpow_eq_intCast (t : Int) (ht : 0 ≤ t) :
    (2 : ℚ) ^ t = (((2 : Int) ^ t.toNat : Int) : ℚ) := by
  obtain ⟨n, rfl⟩ := Int.eq_ofNat_of_zero_le ht
  simp

theorem two_zpow_sub (a b : Int) : (2 : ℚ) ^ a / 2 ^ b = 2 ^ (a - b) := by
  rw [zpow_sub₀ (by norm_num)]

theorem two_zpow_le (a b : Int) (h : a ≤ b) : (2 : ℚ) ^ a ≤ 2 ^ b :=
  zpow_le_zpow_right₀ (by norm_num) h

theorem two_zpow_lt (a b : Int) (h : a < b) : (2 : ℚ) ^ a < 2 ^ b :=
  zpow_lt_zpow_right₀ (by norm_num) h

theorem roundTo_of_lt (F : Format) (x : ℚ) (h : |roundVal F x| < 2 ^ (F.emax + 1)) :
    roundTo F x = Fl.fin (roundVal F x) := by
  unfold roundTo
  rw [if_neg (not_le.mpr h)]

theorem roundVal_zero (F : Format) : roundVal F 0 = 0 := by
  simp [roundVal, roundEven]

/-- The exponent of the unit in the last place is at most `m` when `|x| ≤ 2 ^ m` and
`2 ^ m` is not below the smallest subnormal. -/
theorem ulp_exp_le (F : Format) (hp : 1 ≤ F.p) (x : ℚ) (hx : x ≠ 0) (m : Int)
    (hm : F.emin - ((F.p : Int) - 1) ≤ m) (h : |x| ≤ 2 ^ m) :
    max (Int.log 2 |x|) F.emin - ((F.p : Int) - 1) ≤ m := by
  have hl : Int.log 2 |x| ≤ m := by
    have h1 := zpow_log_le_abs x hx
    have h2 : (2 : ℚ) ^ Int.log 2 |x| ≤ 2 ^ m := le_trans h1 h
    exact (zpow_le_zpow_iff_right₀ (by norm_num)).mp h2
  have hp2 : (1 : Int) ≤ (F.p : Int) := by exact_mod_cast hp
  rcases max_cases (Int.log 2 |x|) F.emin with ⟨h1, _⟩ | ⟨h1, _⟩ <;> rw [h1] <;> omega

/-- Upper bound: a value of magnitude at most `2 ^ m` rounds to one of magnitude at most
`2 ^ m`. -/
theorem roundVal_abs_le (F : Format) (hp : 1 ≤ F.p) (x : ℚ) (m : Int)
    (hm : F.emin - ((F.p : Int) - 1) ≤ m) (h : |x| ≤ 2 ^ m) : |roundVal F x| ≤ 2 ^ m := by
  by_cases hx : x = 0
  · subst hx
    rw [roundVal_zero, abs_zero]
    exact (two_zpow_pos m).le
  · have hu := ulpOf_pos F x
    have hexp := ulp_exp_le F hp x hx m hm h
    set t : Int := m - (max (Int.log 2 |x|) F.emin - ((F.p : Int) - 1)) with ht
    have ht0 : 0 ≤ t := by omega
    have hN : (2 : ℚ) ^ m / ulpOf F x = (((2 : Int) ^ t.toNat : Int) : ℚ) := by
      unfold ulpOf
      rw [two_zpow_sub, ← ht, two_zpow_eq_intCast t ht0]
    have hq := abs_le.mp h
    have hub : x / ulpOf F x ≤ (((2 : Int) ^ t.toNat : Int) : ℚ) := by
      rw [← hN]
      exact div_le_div_of_nonneg_right hq.2 hu.le
    have hlb : ((-(2 : Int) ^ t.toNat : Int) : ℚ) ≤ x / ulpOf F x := by
      have : -((2 : ℚ) ^ m / ulpOf F x) ≤ x / ulpOf F x := by
        rw [← neg_div]
        exact div_le_div_of_nonneg_right hq.1 hu.le
      rw [hN] at this
      exact_mod_cast this
    have h1 := roundEven_le _ _ hub
    have h2 := roundEven_ge _ _ hlb
    have h1q : (roundEven (x / ulpOf F x) : ℚ) ≤ (((2 : Int) ^ t.toNat : Int) : ℚ) :=
      Int.cast_le.mpr h1
    have h2q : ((-(2 : Int) ^ t.toNat : Int) : ℚ) ≤ (roundEven (x / ulpOf F x) : ℚ) :=
      Int.cast_le.mpr h2
    have hm' : (2 : ℚ) ^ m = (((2 : Int) ^ t.toNat : Int) : ℚ) * ulpOf F x := by
      rw [← hN]
      field_simp
    unfold roundVal
    rw [abs_le, hm']
    constructor
    · have := mul_le_mul_of_nonneg_right h2q hu.le
      push_cast at this ⊢
      linarith
    · exact mul_le_mul_of_nonneg_right h1q hu.le

theorem roundVal_nonneg (F : Format) (x : ℚ) (h : 0 ≤ x) : 0 ≤ roundVal F x := by
  have hu := ulpOf_pos F x
  have h0 : ((0 : Int) : ℚ) ≤ x / ulpOf F x := by
    rw [Int.cast_zero]
    exact div_nonneg h hu.le
  have h1 : ((0 : Int) : ℚ) ≤ (roundEven (x / ulpOf F x) : ℚ) :=
    Int.cast_le.mpr (roundEven_ge _ 0 h0)
  rw [Int.cast_zero] at h1
  exact mul_nonneg h1 hu.le

theorem roundVal_nonpos (F : Format) (x : ℚ) (h : x ≤ 0) : roundVal F x ≤ 0 := by
  have hu := ulpOf_pos F x
  have h0 : x / ulpOf F x ≤ ((0 : Int) : ℚ) := by
    rw [Int.cast_zero]
    exact div_nonpos_of_nonpos_of_nonneg h hu.le
  have h1 : (roundEven (x / ulpOf F x) : ℚ) ≤ ((0 : Int) : ℚ) :=
    Int.cast_le.mpr (roundEven_le _ 0 h0)
  rw [Int.cast_zero] at h1
  exact mul_nonpos_of_nonpos_of_nonneg h1 hu.le

/-- In the normal range the unit in the last place of `x` is `2 ^ (log2 |x| - (p - 1))`. -/
theorem ulpOf_normal (F : Format) (x : ℚ) (h : F.emin ≤ Int.log 2 |x|) :
    ulpOf F x = 2 ^ (Int.log 2 |x| - ((F.p : Int) - 1)) := by
  unfold ulpOf
  rw [max_eq_left h]

/-- Lower bound: a positive value of at least `2 ^ m`, `m` in the normal range, rounds to
one of at least `2 ^ m`. -/
theorem roundVal_ge (F : Format) (hp : 1 ≤ F.p) (x : ℚ) (m : Int) (hm : F.emin ≤ m)
    (h : 2 ^ m ≤ x) : 2 ^ m ≤ roundVal F x := by
  have hxpos : 0 < x := lt_of_lt_of_le (two_zpow_pos m) h
  have hx : x ≠ 0 := hxpos.ne'
  have habs : |x| = x := abs_of_pos hxpos
  have hl : m ≤ Int.log 2 |x| := le_log_of_le_abs x hx m (by rw [habs]; exact h)
  have hu := ulpOf_pos F x
  have hue := ulpOf_normal F x (le_trans hm hl)
  have hp2 : (0 : Int) ≤ (F.p : Int) - 1 := by
    have : (1 : Int) ≤ (F.p : Int) := by exact_mod_cast hp
    omega
  have hN : (2 : ℚ) ^ Int.log 2 |x| / ulpOf F x
      = (((2 : Int) ^ ((F.p : Int) - 1).toNat : Int) : ℚ) := by
    rw [hue, two_zpow_sub, ← two_zpow_eq_intCast _ hp2]
    congr 1
    omega
  have hlo : (2 : ℚ) ^ Int.log 2 |x| ≤ x := by
    have := zpow_log_le_abs x hx
    linarith
  have hq : (((2 : Int) ^ ((F.p : Int) - 1).toNat : Int) : ℚ) ≤ x / ulpOf F x := by
    rw [← hN]
    exact div_le_div_of_nonneg_right hlo hu.le
  have h1 : (((2 : Int) ^ ((F.p : Int) - 1).toNat : Int) : ℚ)
      ≤ (roundEven (x / ulpOf F x) : ℚ) := Int.cast_le.mpr (roundEven_ge _ _ hq)
  have h2 : (2 : ℚ) ^ Int.log 2 |x|
      = (((2 : Int) ^ ((F.p : Int) - 1).toNat : Int) : ℚ) * ulpOf F x := by
    rw [← hN]
    field_simp
  calc (2 : ℚ) ^ m ≤ 2 ^ Int.log 2 |x| := two_zpow_le _ _ hl
    _ = (((2 : Int) ^ ((F.p : Int) - 1).toNat : Int) : ℚ) * ulpOf F x := h2
    _ ≤ roundVal F x := mul_le_mul_of_nonneg_right h1 hu.le

theorem ulpOf_neg (F : Format) (x : ℚ) : ulpOf F (-x) = ulpOf F x := by
  unfold ulpOf
  rw [abs_neg]

/-- Overflow of a positive value. -/
theorem roundTo_pos_overflow (F : Format) (hp : 1 ≤ F.p) (he : F.emin ≤ F.emax + 1) (x : ℚ)
    (h : 2 ^ (F.emax + 1) ≤ x) : roundTo F x = Fl.pinf := by
  have hxpos : 0 < x := lt_of_lt_of_le (two_zpow_pos _) h
  have h1 := roundVal_ge F hp x (F.emax + 1) he h
  have h2 : (2 : ℚ) ^ (F.emax + 1) ≤ |roundVal F x| := le_trans h1 (le_abs_self _)
  unfold roundTo
  rw [if_pos h2, if_pos hxpos]

/-- Rounding error: at most half a unit in the last place. -/
theorem roundVal_err (F : Format) (x : ℚ) : |roundVal F x - x| ≤ ulpOf F x / 2 := by
  have hu := ulpOf_pos F x
  have he := roundEven_err (x / ulpOf F x)
  have h1 : roundVal F x - x = ((roundEven (x / ulpOf F x) : ℚ) - x / ulpOf F x) * ulpOf F x := by
    unfold roundVal
    field_simp
  rw [h1, abs_mul, abs_of_pos hu]
  have := mul_le_mul_of_nonneg_right he hu.le
  linarith

/-- Rounding error in terms of a bound on the magnitude: for `|x| < 2 ^ (k + 1)` with `k`
in the normal range the error is at most `2 ^ (k - p)`. -/
theorem roundVal_err_le (F : Format) (x : ℚ) (k : Int) (hk : F.emin ≤ k)
    (h : |x| < 2 ^ (k + 1)) : |roundVal F x - x| ≤ 2 ^ (k - (F.p : Int)) := by
  by_cases hx : x = 0
  · subst hx
    rw [roundVal_zero, sub_zero, abs_zero]
    exact (two_zpow_pos _).le
  · have hl := log_le_of_abs_lt x hx k h
    have he := roundVal_err F x
    have hu : ulpOf F x / 2 ≤ 2 ^ (k - (F.p : Int)) := by
      have h2 : ulpOf F x / 2 = 2 ^ (max (Int.log 2 |x|) F.emin - ((F.p : Int) - 1) - 1) := by
        unfold ulpOf
        rw [zpow_sub_one₀ (by norm_num)]
        ring
      rw [h2]
      apply two_zpow_le
      rcases max_cases (Int.log 2 |x|) F.emin with ⟨h1, _⟩ | ⟨h1, _⟩ <;> rw [h1] <;> omega
    exact le_trans he hu

/-- Evaluation of a rounding in the normal range from the binary exponent `e` of `x` and
the integer `n` nearest to `x / 2 ^ (e - (p - 1))`. -/
theorem roundVal_eval (F : Format) (x : ℚ) (e n : Int) (h1 : 2 ^ e ≤ |x|)
    (h2 : |x| < 2 ^ (e + 1)) (he : F.emin ≤ e)
    (hn : |x / 2 ^ (e - ((F.p : Int) - 1)) - n| < 1 / 2) :
    roundVal F x = (n : ℚ) * 2 ^ (e - ((F.p : Int) - 1)) := by
  have hx : x ≠ 0 := by
    intro h0
    rw [h0, abs_zero] at h1
    exact absurd h1 (not_le.mpr (two_zpow_pos e))
  have hlog : Int.log 2 |x| = e :=
    le_antisymm (log_le_of_abs_lt x hx e h2) (le_log_of_le_abs x hx e h1)
  have hu : ulpOf F x = 2 ^ (e - ((F.p : Int) - 1)) := by
    rw [ulpOf_normal F x (by rw [hlog]; exact he), hlog]
  unfold roundVal
  rw [hu, roundEven_eq _ n hn]

/-- Representable values are not changed by rounding: `n * 2 ^ k` with `|n| < 2 ^ p` and
`2 ^ k` not below the smallest subnormal. -/
theorem roundVal_exact (F : Format) (x : ℚ) (n k : Int) (hx : x = (n : ℚ) * 2 ^ k)
    (hk : F.emin - ((F.p : Int) - 1) ≤ k) (hn : |n| < 2 ^ F.p) : roundVal F x = x := by
  by_cases h0 : x = 0
  · rw [h0, roundVal_zero]
  · have hnq : |(n : ℚ)| < 2 ^ F.p := by exact_mod_cast hn
    have habs : |x| < 2 ^ (((F.p : Int) + k - 1) + 1) := by
      rw [hx, abs_mul, abs_of_pos (two_zpow_pos k)]
      have h1 : (2 : ℚ) ^ (((F.p : Int) + k - 1) + 1) = 2 ^ F.p * 2 ^ k := by
        rw [show ((F.p : Int) + k - 1) + 1 = (F.p : Int) + k by ring,
          zpow_add₀ (by norm_num), zpow_natCast]
      rw [h1]
      exact mul_lt_mul_of_pos_right hnq (two_zpow_pos k)
    have hl := log_le_of_abs_lt x h0 _ habs
    set E : Int := max (Int.log 2 |x|) F.emin - ((F.p : Int) - 1) with hE
    have hEk : E ≤ k := by
      rcases max_cases (Int.log 2 |x|) F.emin with ⟨h1, _⟩ | ⟨h1, _⟩ <;> rw [hE, h1] <;> omega
    have hu : ulpOf F x = 2 ^ E := rfl
    have ht : 0 ≤ k - E := by omega
    have hq : x / ulpOf F x = ((n * (2 : Int) ^ (k - E).toNat : Int) : ℚ) := by
      rw [hu, hx, mul_div_assoc, two_zpow_sub, two_zpow_eq_intCast _ ht]
      push_cast
      ring
    have h2 : (2 : ℚ) ^ k = 2 ^ (k - E) * 2 ^ E := by
      rw [← zpow_add₀ (by norm_num)]
      congr 1
      ring
    unfold roundVal
    rw [hq, roundEven_intCast, hu, hx, h2, two_zpow_eq_intCast _ ht]
    push_cast
    ring

theorem roundEven_tie (q : ℚ) (n : Int) (h : q = (n : ℚ) + 1 / 2 ∨ q = (n : ℚ) - 1 / 2)
    (hev : n % 2 = 0) : roundEven q = n := by
  rcases h with h | h
  · have hf : ⌊q⌋ = n := by
      rw [Int.floor_eq_iff]
      constructor <;> linarith
    unfold roundEven
    rw [hf, h]
    norm_num
    exact Int.dvd_of_emod_eq_zero hev
  · have hf : ⌊q⌋ = n - 1 := by
      rw [Int.floor_eq_iff]
      push_cast
      constructor <;> linarith
    have hodd : ¬ (n - 1) % 2 = 0 := by omega
    unfold roundEven
    rw [hf, h]
    push_cast
    norm_num
    omega

/-- Evaluation of a rounding in the normal range that falls exactly half-way between two
neighbours: the even one is taken. -/
theorem roundTo_eval_tie (F : Format) (x : ℚ) (e n : Int) (h1 : 2 ^ e ≤ |x|)
    (h2 : |x| < 2 ^ (e + 1)) (he : F.emin ≤ e)
    (hn : x / 2 ^ (e - ((F.p : Int) - 1)) = (n : ℚ) + 1 / 2
      ∨ x / 2 ^ (e - ((F.p : Int) - 1)) = (n : ℚ) - 1 / 2)
    (hev : n % 2 = 0)
    (hfin : |(n : ℚ) * 2 ^ (e - ((F.p : Int) - 1))| < 2 ^ (F.emax + 1)) :
    roundTo F x = Fl.fin ((n : ℚ) * 2 ^ (e - ((F.p : Int) - 1))) := by
  have hx : x ≠ 0 := by
    intro h0
    rw [h0, abs_zero] at h1
    exact absurd h1 (not_le.mpr (two_zpow_pos e))
  have hlog : Int.log 2 |x| = e :=
    le_antisymm (log_le_of_abs_lt x hx e h2) (le_log_of_le_abs x hx e h1)
  have hu : ulpOf F x = 2 ^ (e - ((F.p : Int) - 1)) := by
    rw [ulpOf_normal F x (by rw [hlog]; exact he), hlog]
  have hv : roundVal F x = (n : ℚ) * 2 ^ (e - ((F.p : Int) - 1)) := by
    unfold roundVal
    rw [hu, roundEven_tie _ n hn hev]
  rw [roundTo_of_lt F x (by rw [hv]; exact hfin), hv]

/-! ## Rounding into binary32 and binary64 -/

theorem roundTo_eval (F : Format) (x : ℚ) (e n : Int) (h1 : 2 ^ e ≤ |x|)
    (h2 : |x| < 2 ^ (e + 1)) (he : F.emin ≤ e)
    (hn : |x / 2 ^ (e - ((F.p : Int) - 1)) - n| < 1 / 2)
    (hfin : |(n : ℚ) * 2 ^ (e - ((F.p : Int) - 1))| < 2 ^ (F.emax + 1)) :
    roundTo F x = Fl.fin ((n : ℚ) * 2 ^ (e - ((F.p : Int) - 1))) := by
  have hv := roundVal_eval F x e n h1 h2 he hn
  rw [roundTo_of_lt F x (by rw [hv]; exact hfin), hv]

theorem roundTo_exact (F : Format) (x : ℚ) (n k : Int) (hx : x = (n : ℚ) * 2 ^ k)
    (hk : F.emin - ((F.p : Int) - 1) ≤ k) (hn : |n| < 2 ^ F.p)
    (hfin : |x| < 2 ^ (F.emax + 1)) : roundTo F x = Fl.fin x := by
  have hv := roundVal_exact F x n k hx hk hn
  rw [roundTo_of_lt F x (by rw [hv]; exact hfin), hv]

theorem roundTo_zero (F : Format) : roundTo F 0 = Fl.fin 0 := by
  have hv := roundVal_zero F
  rw [roundTo_of_lt F 0 (by rw [hv, abs_zero]; exact two_zpow_pos _), hv]

/-- A finite result with its error bound: for `|x| < 2 ^ (k + 1)`, `k` in the normal range
and `k < emax`, the rounding is finite, within `2 ^ (k - p)` of `x`, and of magnitude at
most `2 ^ (k + 1)`. -/
theorem roundTo_err_fin (F : Format) (hp : 1 ≤ F.p) (x : ℚ) (k : Int) (hk : F.emin ≤ k)
    (hk2 : k + 1 ≤ F.emax) (h : |x| < 2 ^ (k + 1)) :
    ∃ y, roundTo F x = Fl.fin y ∧ |y - x| ≤ 2 ^ (k - (F.p : Int)) ∧ |y| ≤ 2 ^ (k + 1) := by
  have hp2 : (1 : Int) ≤ (F.p : Int) := by exact_mod_cast hp
  have hb := roundVal_abs_le F hp x (k + 1) (by omega) h.le
  refine ⟨roundVal F x, roundTo_of_lt F x ?_, roundVal_err_le F x k hk h, hb⟩
  exact lt_of_le_of_lt hb (two_zpow_lt _ _ (by omega))

/-- A positive value between `2 ^ a` and `2 ^ b` rounds to a finite value in the same
interval. -/
theorem roundTo_pos_between (F : Format) (hp : 1 ≤ F.p) (x : ℚ) (a b : Int)
    (ha : F.emin ≤ a) (hb : b ≤ F.emax) (h1 : 2 ^ a ≤ x) (h2 : x ≤ 2 ^ b) :
    ∃ y, roundTo F x = Fl.fin y ∧ 2 ^ a ≤ y ∧ y ≤ 2 ^ b := by
  have hp2 : (1 : Int) ≤ (F.p : Int) := by exact_mod_cast hp
  have hxpos : 0 < x := lt_of_lt_of_le (two_zpow_pos a) h1
  have hab : a ≤ b := by
    have h3 : (2 : ℚ) ^ a ≤ 2 ^ b := le_trans h1 h2
    exact (zpow_le_zpow_iff_right₀ (by norm_num)).mp h3
  have habs : |x| ≤ 2 ^ b := by
    rw [abs_of_pos hxpos]
    exact h2
  have hub := roundVal_abs_le F hp x b (by omega) habs
  have hlo := roundVal_ge F hp x a ha h1
  refine ⟨roundVal F x, roundTo_of_lt F x ?_, hlo, (abs_le.mp hub).2⟩
  exact lt_of_le_of_lt hub (two_zpow_lt _ _ (by omega))

theorem lit64_zero : lit64 0 = Fl.fin 0 := roundTo_zero binary64

theorem lit64_zero_dec : lit64 0.0 = Fl.fin 0 := by
  rw [show (0.0 : ℚ) = 0 by norm_num]
  exact lit64_zero

theorem lit64_20644 : lit64 20.644 = Fl.fin k20644 ∧ 16 ≤ k20644 ∧ k20644 ≤ 32 := by
  have h1 : (2 : ℚ) ^ (4 : Int) ≤ 20.644 := by norm_num
  have h2 : |(20.644 : ℚ)| ≤ 2 ^ (5 : Int) := by norm_num [abs_le]
  have hlo := roundVal_ge binary64 (by norm_num [binary64]) 20.644 4 (by norm_num [binary64]) h1
  have hhi := roundVal_abs_le binary64 (by norm_num [binary64]) 20.644 5
    (by norm_num [binary64]) h2
  have hup := (abs_le.mp hhi).2
  refine ⟨roundTo_of_lt binary64 _ ?_, ?_, ?_⟩
  · exact lt_of_le_of_lt hhi (two_zpow_lt _ _ (by norm_num [binary64]))
  · rw [show (2 : ℚ) ^ (4 : Int) = 16 by norm_num] at hlo
    exact hlo
  · rw [show (2 : ℚ) ^ (5 : Int) = 32 by norm_num] at hup
    exact hup

theorem lit64_54886 : lit64 54.886 = Fl.fin k54886 ∧ 32 ≤ k54886 ∧ k54886 ≤ 64 := by
  have h1 : (2 : ℚ) ^ (5 : Int) ≤ 54.886 := by norm_num
  have h2 : |(54.886 : ℚ)| ≤ 2 ^ (6 : Int) := by norm_num [abs_le]
  have hlo := roundVal_ge binary64 (by norm_num [binary64]) 54.886 5 (by norm_num [binary64]) h1
  have hhi := roundVal_abs_le binary64 (by norm_num [binary64]) 54.886 6
    (by norm_num [binary64]) h2
  have hup := (abs_le.mp hhi).2
  refine ⟨roundTo_of_lt binary64 _ ?_, ?_, ?_⟩
  · exact lt_of_le_of_lt hhi (two_zpow_lt _ _ (by norm_num [binary64]))
  · rw [show (2 : ℚ) ^ (5 : Int) = 32 by norm_num] at hlo
    exact hlo
  · rw [show (2 : ℚ) ^ (6 : Int) = 64 by norm_num] at hup
    exact hup

/-- What `linearizeRun64` does once the computed total voltage is the finite value `q`. -/
theorem linearizeRun64_fin (iT rT q : ℚ)
    (hq : totalVoltage64 (Fl.fin iT) (Fl.fin rT) = Fl.fin q) :
    linearizeRun64 (Fl.fin iT) (Fl.fin rT) =
      if q < 0 then forLoop64 dSubZero (Fl.fin q) 10 { i := 0, correctedTemp := Fl.fin 0 }
      else if q < k20644 then
        forLoop64 dMid (Fl.fin q) 10 { i := 0, correctedTemp := Fl.fin 0 }
      else if q < k54886 then
        forLoop64 dHigh (Fl.fin q) 10 { i := 0, correctedTemp := Fl.fin 0 }
      else { i := 0, correctedTemp := Fl.nan } := by
  have h1 : dSubZero.length = 10 := rfl
  have h2 : dMid.length = 10 := rfl
  have h3 : dHigh.length = 10 := rfl
  simp only [linearizeRun64, flisnan, hq, lit64_zero, lit64_zero_dec, lit64_20644.1,
    lit64_54886.1, fllt, h1, h2, h3, decide_eq_true_eq, Bool.false_eq_true, if_false]

/-- What `linearizeCelcius64` returns once the computed total voltage is the finite value
`q`. -/
theorem linearizeCelcius64_fin (iT rT q : ℚ)
    (hq : totalVoltage64 (Fl.fin iT) (Fl.fin rT) = Fl.fin q) :
    linearizeCelcius64 (Fl.fin iT) (Fl.fin rT) =
      if q < 0 then
        (forLoop64 dSubZero (Fl.fin q) 10 { i := 0, correctedTemp := Fl.fin 0 }).correctedTemp
      else if q < k20644 then
        (forLoop64 dMid (Fl.fin q) 10 { i := 0, correctedTemp := Fl.fin 0 }).correctedTemp
      else if q < k54886 then
        (forLoop64 dHigh (Fl.fin q) 10 { i := 0, correctedTemp := Fl.fin 0 }).correctedTemp
      else Fl.nan := by
  unfold linearizeCelcius64
  rw [linearizeRun64_fin iT rT q hq]
  split_ifs <;> rfl

theorem k20644_val : k20644 = 2905384709607391 / 140737488355328 := by
  have h := roundVal_eval binary64 20.644 4 5810769419214782
    (by norm_num [abs_of_pos]) (by norm_num [abs_of_pos]) (by norm_num [binary64])
    (by norm_num [binary64, abs_lt])
  unfold k20644
  rw [h]
  norm_num [binary64]

theorem lit64_041276_val :
    lit64 0.041276 = Fl.fin (5948498503019027 / 144115188075855872) := by
  have h := roundTo_eval binary64 0.041276 (-5) 5948498503019027
    (by norm_num [abs_of_pos]) (by norm_num [abs_of_pos]) (by norm_num [binary64])
    (by norm_num [binary64, abs_lt]) (by norm_num [binary64, abs_of_pos])
  unfold lit64
  rw [h]
  norm_num [binary64]

/-- Evaluation of the total voltage from the values of its five roundings. -/
theorem totalVoltage64_eval (iT rT x1 c1 p1 c2 p2 s : ℚ)
    (hx1 : roundTo binary64 (rT + -iT) = Fl.fin x1)
    (hc1 : lit64 0.041276 = Fl.fin c1) (hp1 : roundTo binary64 (x1 * c1) = Fl.fin p1)
    (hc2 : lit64 0.04073 = Fl.fin c2) (hp2 : roundTo binary64 (iT * c2) = Fl.fin p2)
    (hs : roundTo binary64 (p1 + p2) = Fl.fin s) :
    totalVoltage64 (Fl.fin iT) (Fl.fin rT) = Fl.fin s := by
  simp only [totalVoltage64, flsub, flneg, fladd, hx1, hc1, flmul, hp1, hc2, hp2, hs]

/-- NaN inputs in binary64: a NaN `rawTemp` returns at the `isnan` test, a NaN
`internalTemp` makes the total voltage NaN so that all three comparisons fail; in both
cases the result is NaN and no pass of a coefficient loop is made. -/
theorem linearizeCelcius64_nan_input (internalTemp rawTemp : Fl)
    (h : internalTemp = Fl.nan ∨ rawTemp = Fl.nan) :
    linearizeCelcius64 internalTemp rawTemp = Fl.nan ∧
    (linearizeRun64 internalTemp rawTemp).i = 0 := by
  rcases h with h | h
  · subst h
    have ht : totalVoltage64 Fl.nan rawTemp = Fl.nan := by
      cases rawTemp <;> simp [totalVoltage64, flsub, flneg, fladd, flmul]
    cases rawTemp <;>
      simp [linearizeCelcius64, linearizeRun64, flisnan, ht, fllt]
  · subst h
    simp [linearizeCelcius64, linearizeRun64, flisnan]

theorem lit64_04073_val :
    lit64 0.04073 = Fl.fin (2934905805164805 / 72057594037927936) := by
  have h := roundTo_eval binary64 0.04073 (-5) 5869811610329610
    (by norm_num [abs_of_pos]) (by norm_num [abs_of_pos]) (by norm_num [binary64])
    (by norm_num [binary64, abs_lt]) (by norm_num [binary64, abs_of_pos])
  unfold lit64
  rw [h]
  norm_num [binary64]

theorem flpow_succ (a : ℚ) (i : Nat) :
    flpow (Fl.fin a) (i + 1) = roundTo binary64 (a ^ (i + 1)) := rfl

/-- One pass of a coefficient loop from the values of its roundings. -/
theorem polyStep64_fin (d : List ℚ) (v acc dv c p t r : ℚ) (i : Nat)
    (hd : d.getD i 0 = dv) (hl : lit64 dv = Fl.fin c) (hp : flpow (Fl.fin v) i = Fl.fin p)
    (hm : roundTo binary64 (c * p) = Fl.fin t) (ha : roundTo binary64 (acc + t) = Fl.fin r) :
    polyStep64 d (Fl.fin v) { i := i, correctedTemp := Fl.fin acc }
      = { i := i + 1, correctedTemp := Fl.fin r } := by
  simp only [polyStep64, hd, hl, hp, flmul, hm, fladd, ha]

/-- Ten passes of a coefficient loop, pass by pass. -/
theorem forLoop64_ten (d : List ℚ) (v : Fl)
    (s0 s1 s2 s3 s4 s5 s6 s7 s8 s9 s10 : LinearizeState64)
    (h0 : polyStep64 d v s0 = s1) (h1 : polyStep64 d v s1 = s2) (h2 : polyStep64 d v s2 = s3)
    (h3 : polyStep64 d v s3 = s4) (h4 : polyStep64 d v s4 = s5) (h5 : polyStep64 d v s5 = s6)
    (h6 : polyStep64 d v s6 = s7) (h7 : polyStep64 d v s7 = s8) (h8 : polyStep64 d v s8 = s9)
    (h9 : polyStep64 d v s9 = s10) : forLoop64 d v 10 s0 = s10 := by
  simp only [forLoop64, h0, h1, h2, h3, h4, h5, h6, h7, h8, h9]

/-! ## The scenario of the specification in binary64 -/

theorem scenario_diff : roundTo binary64 (250 + -10) = Fl.fin 240 := by
  rw [show (250 + -10 : ℚ) = 240 by norm_num]
  exact roundTo_exact binary64 _ 15 4 (by norm_num) (by norm_num [binary64])
    (by norm_num [binary64]) (by norm_num [binary64])

theorem scenario_tc :
    roundTo binary64 (240 * (5948498503019027 / 144115188075855872))
      = Fl.fin (2788358673290169 / 281474976710656) := by
  have h := roundTo_eval binary64
    (240 * (5948498503019027 / 144115188075855872))
    (3) (5576717346580338)
    (by norm_num [abs_le, le_abs]) (by norm_num [abs_lt]) (by norm_num [binary64])
    (by norm_num [binary64, abs_lt]) (by norm_num [binary64, abs_lt])
  refine Eq.trans h ?_
  norm_num [binary64]

theorem scenario_cj :
    roundTo binary64 (10 * (2934905805164805 / 72057594037927936))
      = Fl.fin (1834316128228003 / 4503599627370496) := by
  have h := roundTo_eval_tie binary64
    (10 * (2934905805164805 / 72057594037927936))
    (-2) (7337264512912012)
    (by norm_num [abs_le, le_abs]) (by norm_num [abs_lt]) (by norm_num [binary64])
    (Or.inl (by norm_num [binary64])) (by norm_num) (by norm_num [binary64, abs_lt])
  refine Eq.trans h ?_
  norm_num [binary64]

theorem scenario_sum :
    roundTo binary64 ((2788358673290169 / 281474976710656) + (1834316128228003 / 4503599627370496))
      = Fl.fin (2903003431304419 / 281474976710656) := by
  have h := roundTo_eval binary64
    ((2788358673290169 / 281474976710656) + (1834316128228003 / 4503599627370496))
    (3) (5806006862608838)
    (by norm_num [abs_le, le_abs]) (by norm_num [abs_lt]) (by norm_num [binary64])
    (by norm_num [binary64, abs_lt]) (by norm_num [binary64, abs_lt])
  refine Eq.trans h ?_
  norm_num [binary64]

/-- The total voltage the code computes for cold junction 10 and reading 250: the
`double` nearest to 10.31354 from below, not 10.31354 itself. -/
theorem totalVoltage64_scenario :
    totalVoltage64 (Fl.fin 10) (Fl.fin 250) = Fl.fin (2903003431304419 / 281474976710656) :=
  totalVoltage64_eval _ _ _ _ _ _ _ _ scenario_diff lit64_041276_val scenario_tc
    lit64_04073_val scenario_cj scenario_sum

theorem mid_get_0 : dMid.getD 0 0 = 0 := by norm_num [dMid]

theorem mid_coef_0 : lit64 0 = Fl.fin 0 := lit64_zero

theorem mid_pow_0 : flpow (Fl.fin (2903003431304419 / 281474976710656)) 0 = Fl.fin 1 := rfl

theorem mid_term_0 : roundTo binary64 (0 * 1) = Fl.fin 0 := by
  rw [zero_mul]
  exact roundTo_zero binary64

theorem mid_sum_0 : roundTo binary64 (0 + 0) = Fl.fin 0 := by
  rw [add_zero]
  exact roundTo_zero binary64

theorem mid_pass_0 :
    polyStep64 dMid (Fl.fin (2903003431304419 / 281474976710656))
        { i := 0, correctedTemp := Fl.fin 0 }
      = { i := 1, correctedTemp := Fl.fin 0 } :=
  polyStep64_fin dMid _ _ _ _ _ _ _ 0 mid_get_0 mid_coef_0 mid_pow_0 mid_term_0
    mid_sum_0

theorem mid_get_1 : dMid.getD 1 0 = (501671 / 20000) := by norm_num [dMid]

theorem mid_coef_1 :
    lit64 (501671 / 20000) = Fl.fin (7060391652070575 / 281474976710656) := by
  have h := roundTo_eval binary64
    ((501671 / 20000))
    (4) (7060391652070575)
    (by norm_num [abs_le, le_abs]) (by norm_num [abs_lt]) (by norm_num [binary64])
    (by norm_num [binary64, abs_lt]) (by norm_num [binary64, abs_lt])
  refine Eq.trans h ?_
  norm_num [binary64]

theorem mid_pow_1 :
    flpow (Fl.fin (2903003431304419 / 281474976710656)) 1
      = Fl.fin (2903003431304419 / 281474976710656) := by
  have h := roundTo_eval binary64
    ((2903003431304419 / 281474976710656) ^ (0 + 1))
    (3) (5806006862608838)
    (by norm_num [abs_le, le_abs]) (by norm_num [abs_lt]) (by norm_num [binary64])
    (by norm_num [binary64, abs_lt]) (by norm_num [binary64, abs_lt])
  refine Eq.trans (flpow_succ (2903003431304419 / 281474976710656) 0)
    (Eq.trans h ?_)
  norm_num [binary64]

theorem mid_term_1 :
    roundTo binary64 ((7060391652070575 / 281474976710656) * (2903003431304419 / 281474976710656))
      = Fl.fin (4551101982455997 / 17592186044416) := by
  have h := roundTo_eval binary64
    ((7060391652070575 / 281474976710656) * (2903003431304419 / 281474976710656))
    (8) (4551101982455997)
    (by norm_num [abs_le, le_abs]) (by norm_num [abs_lt]) (by norm_num [binary64])
    (by norm_num [binary64, abs_lt]) (by norm_num [binary64, abs_lt])
  refine Eq.trans h ?_
  norm_num [binary64]

theorem mid_sum_1 :
    roundTo binary64 (0 + (4551101982455997 / 17592186044416))
      = Fl.fin (4551101982455997 / 17592186044416) := by
  have h := roundTo_eval binary64
    (0 + (4551101982455997 / 17592186044416))
    (8) (4551101982455997)
    (by norm_num [abs_le, le_abs]) (by norm_num [abs_lt]) (by norm_num [binary64])
    (by norm_num [binary64, abs_lt]) (by norm_num [binary64, abs_lt])
  refine Eq.trans h ?_
  norm_num [binary64]

theorem mid_pass_1 :
    polyStep64 dMid (Fl.fin (2903003431304419 / 281474976710656))
        { i := 1, correctedTemp := Fl.fin 0 }
      = { i := 2, correctedTemp := Fl.fin (4551101982455997 / 17592186044416) } :=
  polyStep64_fin dMid _ _ _ _ _ _ _ 1 mid_get_1 mid_coef_1 mid_pow_1 mid_term_1
    mid_sum_1

theorem mid_get_2 : dMid.getD 2 0 = (3930053 / 50000000) := by norm_num [dMid]

theorem mid_coef_2 :
    lit64 (3930053 / 50000000) = Fl.fin (176993852263463 / 2251799813685248) := by
  have h := roundTo_eval binary64
    ((3930053 / 50000000))
    (-4) (5663803272430816)
    (by norm_num [abs_le, le_abs]) (by norm_num [abs_lt]) (by norm_num [binary64])
    (by norm_num [binary64, abs_lt]) (by norm_num [binary64, abs_lt])
  refine Eq.trans h ?_
  norm_num [binary64]

theorem mid_pow_2 :
    flpow (Fl.fin (2903003431304419 / 281474976710656)) 2
      = Fl.fin (1871265125555961 / 17592186044416) := by
  have h := roundTo_eval binary64
    ((2903003431304419 / 281474976710656) ^ (1 + 1))
    (6) (7485060502223844)
    (by norm_num [abs_le, le_abs]) (by norm_num [abs_lt]) (by norm_num [binary64])
    (by norm_num [binary64, abs_lt]) (by norm_num [binary64, abs_lt])
  refine Eq.trans (flpow_succ (2903003431304419 / 281474976710656) 1)
    (Eq.trans h ?_)
  norm_num [binary64]

theorem mid_term_2 :
    roundTo binary64 ((176993852263463 / 2251799813685248) * (1871265125555961 / 17592186044416))
      = Fl.fin (1176667379277853 / 140737488355328) := by
  have h := roundTo_eval binary64
    ((176993852263463 / 2251799813685248) * (1871265125555961 / 17592186044416))
    (3) (4706669517111412)
    (by norm_num [abs_le, le_abs]) (by norm_num [abs_lt]) (by norm_num [binary64])
    (by norm_num [binary64, abs_lt]) (by norm_num [binary64, abs_lt])
  refine Eq.trans h ?_
  norm_num [binary64]

theorem mid_sum_2 :
    roundTo binary64 ((4551101982455997 / 17592186044416) + (1176667379277853 / 140737488355328))
      = Fl.fin (4698185404865729 / 17592186044416) := by
  have h := roundTo_eval binary64
    ((4551101982455997 / 17592186044416) + (1176667379277853 / 140737488355328))
    (8) (4698185404865729)
    (by norm_num [abs_le, le_abs]) (by norm_num [abs_lt]) (by norm_num [binary64])
    (by norm_num [binary64, abs_lt]) (by norm_num [binary64, abs_lt])
  refine Eq.trans h ?_
  norm_num [binary64]

theorem mid_pass_2 :
    polyStep64 dMid (Fl.fin (2903003431304419 / 281474976710656))
        { i := 2, correctedTemp := Fl.fin (4551101982455997 / 17592186044416) }
      = { i := 3, correctedTemp := Fl.fin (4698185404865729 / 17592186044416) } :=
  polyStep64_fin dMid _ _ _ _ _ _ _ 2 mid_get_2 mid_coef_2 mid_pow_2 mid_term_2
    mid_sum_2

theorem mid_get_3 : dMid.getD 3 0 = (-(2503131 / 10000000)) := by norm_num [dMid]

theorem mid_coef_3 :
    lit64 (-(2503131 / 10000000)) = Fl.fin (-(4509239935543815 / 18014398509481984)) := by
  have h := roundTo_eval binary64
    ((-(2503131 / 10000000)))
    (-2) (-4509239935543815)
    (by norm_num [abs_le, le_abs]) (by norm_num [abs_lt]) (by norm_num [binary64])
    (by norm_num [binary64, abs_lt]) (by norm_num [binary64, abs_lt])
  refine Eq.trans h ?_
  norm_num [binary64]

theorem mid_pow_3 :
    flpow (Fl.fin (2903003431304419 / 281474976710656)) 3
      = Fl.fin (2412420965378303 / 2199023255552) := by
  have h := roundTo_eval binary64
    ((2903003431304419 / 281474976710656) ^ (2 + 1))
    (10) (4824841930756606)
    (by norm_num [abs_le, le_abs]) (by norm_num [abs_lt]) (by norm_num [binary64])
    (by norm_num [binary64, abs_lt]) (by norm_num [binary64, abs_lt])
  refine Eq.trans (flpow_succ (2903003431304419 / 281474976710656) 2)
    (Eq.trans h ?_)
  norm_num [binary64]

theorem mid_term_3 :
    roundTo binary64
        ((-(4509239935543815 / 18014398509481984)) * (2412420965378303 / 2199023255552))
      = Fl.fin (-(2415442281395343 / 8796093022208)) := by
  have h := roundTo_eval binary64
    ((-(4509239935543815 / 18014398509481984)) * (2412420965378303 / 2199023255552))
    (8) (-4830884562790686)
    (by norm_num [abs_le, le_abs]) (by norm_num [abs_lt]) (by norm_num [binary64])
    (by norm_num [binary64, abs_lt]) (by norm_num [binary64, abs_lt])
  refine Eq.trans h ?_
  norm_num [binary64]

theorem mid_sum_3 :
    roundTo binary64 ((4698185404865729 / 17592186044416) + (-(2415442281395343 / 8796093022208)))
      = Fl.fin (-(132699157924957 / 17592186044416)) := by
  have h := roundTo_eval binary64
    ((4698185404865729 / 17592186044416) + (-(2415442281395343 / 8796093022208)))
    (2) (-8492746107197248)
    (by norm_num [abs_le, le_abs]) (by norm_num [abs_lt]) (by norm_num [binary64])
    (by norm_num [binary64, abs_lt]) (by norm_num [binary64, abs_lt])
  refine Eq.trans h ?_
  norm_num [binary64]

theorem mid_pass_3 :
    polyStep64 dMid (Fl.fin (2903003431304419 / 281474976710656))
        { i := 3, correctedTemp := Fl.fin (4698185404865729 / 17592186044416) }
      = { i := 4, correctedTemp := Fl.fin (-(132699157924957 / 17592186044416)) } :=
  polyStep64_fin dMid _ _ _ _ _ _ _ 3 mid_get_3 mid_coef_3 mid_pow_3 mid_term_3
    mid_sum_3

theorem mid_get_4 : dMid.getD 4 0 = (831527 / 10000000) := by norm_num [dMid]

theorem mid_coef_4 :
    lit64 (831527 / 10000000) = Fl.fin (2995891749878805 / 36028797018963968) := by
  have h := roundTo_eval binary64
    ((831527 / 10000000))
    (-4) (5991783499757610)
    (by norm_num [abs_le, le_abs]) (by norm_num [abs_lt]) (by norm_num [binary64])
    (by norm_num [binary64, abs_lt]) (by norm_num [binary64, abs_lt])
  refine Eq.trans h ?_
  norm_num [binary64]

theorem mid_pow_4 :
    flpow (Fl.fin (2903003431304419 / 281474976710656)) 4
      = Fl.fin (777518753852117 / 68719476736) := by
  have h := roundTo_eval binary64
    ((2903003431304419 / 281474976710656) ^ (3 + 1))
    (13) (6220150030816936)
    (by norm_num [abs_le, le_abs]) (by norm_num [abs_lt]) (by norm_num [binary64])
    (by norm_num [binary64, abs_lt]) (by norm_num [binary64, abs_lt])
  refine Eq.trans (flpow_succ (2903003431304419 / 281474976710656) 3)
    (Eq.trans h ?_)
  norm_num [binary64]

theorem mid_term_4 :
    roundTo binary64 ((2995891749878805 / 36028797018963968) * (777518753852117 / 68719476736))
      = Fl.fin (8275556311480183 / 8796093022208) := by
  have h := roundTo_eval binary64
    ((2995891749878805 / 36028797018963968) * (777518753852117 / 68719476736))
    (9) (8275556311480183)
    (by norm_num [abs_le, le_abs]) (by norm_num [abs_lt]) (by norm_num [binary64])
    (by norm_num [binary64, abs_lt]) (by norm_num [binary64, abs_lt])
  refine Eq.trans h ?_
  norm_num [binary64]

theorem mid_sum_4 :
    roundTo binary64 ((-(132699157924957 / 17592186044416)) + (8275556311480183 / 8796093022208))
      = Fl.fin (1026150841564713 / 1099511627776) := by
  have h := roundTo_eval_tie binary64
    ((-(132699157924957 / 17592186044416)) + (8275556311480183 / 8796093022208))
    (9) (8209206732517704)
    (by norm_num [abs_le, le_abs]) (by norm_num [abs_lt]) (by norm_num [binary64])
    (Or.inl (by norm_num [binary64])) (by norm_num) (by norm_num [binary64, abs_lt])
  refine Eq.trans h ?_
  norm_num [binary64]

theorem mid_pass_4 :
    polyStep64 dMid (Fl.fin (2903003431304419 / 281474976710656))
        { i := 4, correctedTemp := Fl.fin (-(132699157924957 / 17592186044416)) }
      = { i := 5, correctedTemp := Fl.fin (1026150841564713 / 1099511627776) } :=
  polyStep64_fin dMid _ _ _ _ _ _ _ 4 mid_get_4 mid_coef_4 mid_pow_4 mid_term_4
    mid_sum_4

theorem mid_get_5 : dMid.getD 5 0 = (-(614017 / 50000000)) := by norm_num [dMid]

theorem mid_coef_5 :
    lit64 (-(614017 / 50000000)) = Fl.fin (-(55305734647983 / 4503599627370496)) := by
  have h := roundTo_eval binary64
    ((-(614017 / 50000000)))
    (-7) (-7079134034941824)
    (by norm_num [abs_le, le_abs]) (by norm_num [abs_lt]) (by norm_num [binary64])
    (by norm_num [binary64, abs_lt]) (by norm_num [binary64, abs_lt])
  refine Eq.trans h ?_
  norm_num [binary64]

theorem mid_pow_5 :
    flpow (Fl.fin (2903003431304419 / 281474976710656)) 5
      = Fl.fin (8018970768603963 / 68719476736) := by
  have h := roundTo_eval binary64
    ((2903003431304419 / 281474976710656) ^ (4 + 1))
    (16) (8018970768603963)
    (by norm_num [abs_le, le_abs]) (by norm_num [abs_lt]) (by norm_num [binary64])
    (by norm_num [binary64, abs_lt]) (by norm_num [binary64, abs_lt])
  refine Eq.trans (flpow_succ (2903003431304419 / 281474976710656) 4)
    (Eq.trans h ?_)
  norm_num [binary64]

theorem mid_term_5 :
    roundTo binary64 ((-(55305734647983 / 4503599627370496)) * (8018970768603963 / 68719476736))
      = Fl.fin (-(49237843744259 / 34359738368)) := by
  have h := roundTo_eval binary64
    ((-(55305734647983 / 4503599627370496)) * (8018970768603963 / 68719476736))
    (10) (-6302443999265152)
    (by norm_num [abs_le, le_abs]) (by norm_num [abs_lt]) (by norm_num [binary64])
    (by norm_num [binary64, abs_lt]) (by norm_num [binary64, abs_lt])
  refine Eq.trans h ?_
  norm_num [binary64]

theorem mid_sum_5 :
    roundTo binary64 ((1026150841564713 / 1099511627776) + (-(49237843744259 / 34359738368)))
      = Fl.fin (-(549460158251575 / 1099511627776)) := by
  have h := roundTo_eval binary64
    ((1026150841564713 / 1099511627776) + (-(49237843744259 / 34359738368)))
    (8) (-8791362532025200)
    (by norm_num [abs_le, le_abs]) (by norm_num [abs_lt]) (by norm_num [binary64])
    (by norm_num [binary64, abs_lt]) (by norm_num [binary64, abs_lt])
  refine Eq.trans h ?_
  norm_num [binary64]

theorem mid_pass_5 :
    polyStep64 dMid (Fl.fin (2903003431304419 / 281474976710656))
        { i := 5, correctedTemp := Fl.fin (1026150841564713 / 1099511627776) }
      = { i := 6, correctedTemp := Fl.fin (-(549460158251575 / 1099511627776)) } :=
  polyStep64_fin dMid _ _ _ _ _ _ _ 5 mid_get_5 mid_coef_5 mid_pow_5 mid_term_5
    mid_sum_5

theorem mid_get_6 : dMid.getD 6 0 = (2451009 / 2500000000) := by norm_num [dMid]

theorem mid_coef_6 :
    lit64 (2451009 / 2500000000) = Fl.fin (4521313574535877 / 4611686018427387904) := by
  have h := roundTo_eval binary64
    ((2451009 / 2500000000))
    (-10) (4521313574535877)
    (by norm_num [abs_le, le_abs]) (by norm_num [abs_lt]) (by norm_num [binary64])
    (by norm_num [binary64, abs_lt]) (by norm_num [binary64, abs_lt])
  refine Eq.trans h ?_
  norm_num [binary64]

theorem mid_pow_6 :
    flpow (Fl.fin (2903003431304419 / 281474976710656)) 6
      = Fl.fin (1292249621575433 / 1073741824) := by
  have h := roundTo_eval binary64
    ((2903003431304419 / 281474976710656) ^ (5 + 1))
    (20) (5168998486301732)
    (by norm_num [abs_le, le_abs]) (by norm_num [abs_lt]) (by norm_num [binary64])
    (by norm_num [binary64, abs_lt]) (by norm_num [binary64, abs_lt])
  refine Eq.trans (flpow_succ (2903003431304419 / 281474976710656) 5)
    (Eq.trans h ?_)
  norm_num [binary64]

theorem mid_term_6 :
    roundTo binary64 ((4521313574535877 / 4611686018427387904) * (1292249621575433 / 1073741824))
      = Fl.fin (5189329637749523 / 4398046511104) := by
  have h := roundTo_eval binary64
    ((4521313574535877 / 4611686018427387904) * (1292249621575433 / 1073741824))
    (10) (5189329637749523)
    (by norm_num [abs_le, le_abs]) (by norm_num [abs_lt]) (by norm_num [binary64])
    (by norm_num [binary64, abs_lt]) (by norm_num [binary64, abs_lt])
  refine Eq.trans h ?_
  norm_num [binary64]

theorem mid_sum_6 :
    roundTo binary64 ((-(549460158251575 / 1099511627776)) + (5189329637749523 / 4398046511104))
      = Fl.fin (2991489004743223 / 4398046511104) := by
  have h := roundTo_eval binary64
    ((-(549460158251575 / 1099511627776)) + (5189329637749523 / 4398046511104))
    (9) (5982978009486446)
    (by norm_num [abs_le, le_abs]) (by norm_num [abs_lt]) (by norm_num [binary64])
    (by norm_num [binary64, abs_lt]) (by norm_num [binary64, abs_lt])
  refine Eq.trans h ?_
  norm_num [binary64]

theorem mid_pass_6 :
    polyStep64 dMid (Fl.fin (2903003431304419 / 281474976710656))
        { i := 6, correctedTemp := Fl.fin (-(549460158251575 / 1099511627776)) }
      = { i := 7, correctedTemp := Fl.fin (2991489004743223 / 4398046511104) } :=
  polyStep64_fin dMid _ _ _ _ _ _ _ 6 mid_get_6 mid_coef_6 mid_pow_6 mid_term_6
    mid_sum_6

theorem mid_get_7 : dMid.getD 7 0 = (-(441303 / 10000000000)) := by norm_num [dMid]

theorem mid_coef_7 :
    lit64 (-(441303 / 10000000000)) = Fl.fin (-(6512482799968197 / 147573952589676412928)) := by
  have h := roundTo_eval binary64
    ((-(441303 / 10000000000)))
    (-15) (-6512482799968197)
    (by norm_num [abs_le, le_abs]) (by norm_num [abs_lt]) (by norm_num [binary64])
    (by norm_num [binary64, abs_lt]) (by norm_num [binary64, abs_lt])
  refine Eq.trans h ?_
  norm_num [binary64]

theorem mid_pow_7 :
    flpow (Fl.fin (2903003431304419 / 281474976710656)) 7
      = Fl.fin (6663834081051545 / 536870912) := by
  have h := roundTo_eval binary64
    ((2903003431304419 / 281474976710656) ^ (6 + 1))
    (23) (6663834081051545)
    (by norm_num [abs_le, le_abs]) (by norm_num [abs_lt]) (by norm_num [binary64])
    (by norm_num [binary64, abs_lt]) (by norm_num [binary64, abs_lt])
  refine Eq.trans (flpow_succ (2903003431304419 / 281474976710656) 6)
    (Eq.trans h ?_)
  norm_num [binary64]

theorem mid_term_7 :
    roundTo binary64
        ((-(6512482799968197 / 147573952589676412928)) * (6663834081051545 / 536870912))
      = Fl.fin (-(4818157521256923 / 8796093022208)) := by
  have h := roundTo_eval binary64
    ((-(6512482799968197 / 147573952589676412928)) * (6663834081051545 / 536870912))
    (9) (-4818157521256923)
    (by norm_num [abs_le, le_abs]) (by norm_num [abs_lt]) (by norm_num [binary64])
    (by norm_num [binary64, abs_lt]) (by norm_num [binary64, abs_lt])
  refine Eq.trans h ?_
  norm_num [binary64]

theorem mid_sum_7 :
    roundTo binary64 ((2991489004743223 / 4398046511104) + (-(4818157521256923 / 8796093022208)))
      = Fl.fin (1164820488229523 / 8796093022208) := by
  have h := roundTo_eval binary64
    ((2991489004743223 / 4398046511104) + (-(4818157521256923 / 8796093022208)))
    (7) (4659281952918092)
    (by norm_num [abs_le, le_abs]) (by norm_num [abs_lt]) (by norm_num [binary64])
    (by norm_num [binary64, abs_lt]) (by norm_num [binary64, abs_lt])
  refine Eq.trans h ?_
  norm_num [binary64]

theorem mid_pass_7 :
    polyStep64 dMid (Fl.fin (2903003431304419 / 281474976710656))
        { i := 7, correctedTemp := Fl.fin (2991489004743223 / 4398046511104) }
      = { i := 8, correctedTemp := Fl.fin (1164820488229523 / 8796093022208) } :=
  polyStep64_fin dMid _ _ _ _ _ _ _ 7 mid_get_7 mid_coef_7 mid_pow_7 mid_term_7
    mid_sum_7

theorem mid_get_8 : dMid.getD 8 0 = (528867 / 500000000000) := by norm_num [dMid]

theorem mid_coef_8 :
    lit64 (528867 / 500000000000) = Fl.fin (4995007589391641 / 4722366482869645213696) := by
  have h := roundTo_eval binary64
    ((528867 / 500000000000))
    (-20) (4995007589391641)
    (by norm_num [abs_le, le_abs]) (by norm_num [abs_lt]) (by norm_num [binary64])
    (by norm_num [binary64, abs_lt]) (by norm_num [binary64, abs_lt])
  refine Eq.trans h ?_
  norm_num [binary64]

theorem mid_pow_8 :
    flpow (Fl.fin (2903003431304419 / 281474976710656)) 8
      = Fl.fin (2147741229634011 / 16777216) := by
  have h := roundTo_eval binary64
    ((2903003431304419 / 281474976710656) ^ (7 + 1))
    (26) (8590964918536044)
    (by norm_num [abs_le, le_abs]) (by norm_num [abs_lt]) (by norm_num [binary64])
    (by norm_num [binary64, abs_lt]) (by norm_num [binary64, abs_lt])
  refine Eq.trans (flpow_succ (2903003431304419 / 281474976710656) 7)
    (Eq.trans h ?_)
  norm_num [binary64]

theorem mid_term_8 :
    roundTo binary64 ((4995007589391641 / 4722366482869645213696) * (2147741229634011 / 16777216))
      = Fl.fin (2382090911650363 / 17592186044416) := by
  have h := roundTo_eval binary64
    ((4995007589391641 / 4722366482869645213696) * (2147741229634011 / 16777216))
    (7) (4764181823300726)
    (by norm_num [abs_le, le_abs]) (by norm_num [abs_lt]) (by norm_num [binary64])
    (by norm_num [binary64, abs_lt]) (by norm_num [binary64, abs_lt])
  refine Eq.trans h ?_
  norm_num [binary64]

theorem mid_sum_8 :
    roundTo binary64 ((1164820488229523 / 8796093022208) + (2382090911650363 / 17592186044416))
      = Fl.fin (4711731888109409 / 17592186044416) := by
  have h := roundTo_eval binary64
    ((1164820488229523 / 8796093022208) + (2382090911650363 / 17592186044416))
    (8) (4711731888109409)
    (by norm_num [abs_le, le_abs]) (by norm_num [abs_lt]) (by norm_num [binary64])
    (by norm_num [binary64, abs_lt]) (by norm_num [binary64, abs_lt])
  refine Eq.trans h ?_
  norm_num [binary64]

theorem mid_pass_8 :
    polyStep64 dMid (Fl.fin (2903003431304419 / 281474976710656))
        { i := 8, correctedTemp := Fl.fin (1164820488229523 / 8796093022208) }
      = { i := 9, correctedTemp := Fl.fin (4711731888109409 / 17592186044416) } :=
  polyStep64_fin dMid _ _ _ _ _ _ _ 8 mid_get_8 mid_coef_8 mid_pow_8 mid_term_8
    mid_sum_8

theorem mid_get_9 : dMid.getD 9 0 = (-(210551 / 20000000000000)) := by norm_num [dMid]

theorem mid_coef_9 :
    lit64 (-(210551 / 20000000000000))
      = Fl.fin (-(6363513506141995 / 604462909807314587353088)) := by
  have h := roundTo_eval binary64
    ((-(210551 / 20000000000000)))
    (-27) (-6363513506141995)
    (by norm_num [abs_le, le_abs]) (by norm_num [abs_lt]) (by norm_num [binary64])
    (by norm_num [binary64, abs_lt]) (by norm_num [binary64, abs_lt])
  refine Eq.trans h ?_
  norm_num [binary64]

theorem mid_pow_9 :
    flpow (Fl.fin (2903003431304419 / 281474976710656)) 9
      = Fl.fin (5537703770369889 / 4194304) := by
  have h := roundTo_eval binary64
    ((2903003431304419 / 281474976710656) ^ (8 + 1))
    (30) (5537703770369889)
    (by norm_num [abs_le, le_abs]) (by norm_num [abs_lt]) (by norm_num [binary64])
    (by norm_num [binary64, abs_lt]) (by norm_num [binary64, abs_lt])
  refine Eq.trans (flpow_succ (2903003431304419 / 281474976710656) 8)
    (Eq.trans h ?_)
  norm_num [binary64]

theorem mid_term_9 :
    roundTo binary64
        ((-(6363513506141995 / 604462909807314587353088)) * (5537703770369889 / 4194304))
      = Fl.fin (-(7824685951565655 / 562949953421312)) := by
  have h := roundTo_eval binary64
    ((-(6363513506141995 / 604462909807314587353088)) * (5537703770369889 / 4194304))
    (3) (-7824685951565655)
    (by norm_num [abs_le, le_abs]) (by norm_num [abs_lt]) (by norm_num [binary64])
    (by norm_num [binary64, abs_lt]) (by norm_num [binary64, abs_lt])
  refine Eq.trans h ?_
  norm_num [binary64]

theorem mid_sum_9 :
    roundTo binary64 ((4711731888109409 / 17592186044416) + (-(7824685951565655 / 562949953421312)))
      = Fl.fin (8934420904245965 / 35184372088832) := by
  have h := roundTo_eval binary64
    ((4711731888109409 / 17592186044416) + (-(7824685951565655 / 562949953421312)))
    (7) (8934420904245965)
    (by norm_num [abs_le, le_abs]) (by norm_num [abs_lt]) (by norm_num [binary64])
    (by norm_num [binary64, abs_lt]) (by norm_num [binary64, abs_lt])
  refine Eq.trans h ?_
  norm_num [binary64]

theorem mid_pass_9 :
    polyStep64 dMid (Fl.fin (2903003431304419 / 281474976710656))
        { i := 9, correctedTemp := Fl.fin (4711731888109409 / 17592186044416) }
      = { i := 10, correctedTemp := Fl.fin (8934420904245965 / 35184372088832) } :=
  polyStep64_fin dMid _ _ _ _ _ _ _ 9 mid_get_9 mid_coef_9 mid_pow_9 mid_term_9
    mid_sum_9

/-- The scenario of the specification evaluated in binary64: for cold junction 10 and
reading 250 the code returns the `double` 253.93151486940624, between 3.9 and 4.0 above
250, as in exact arithmetic. -/
theorem linearizeCelcius64_scenario :
    linearizeCelcius64 (Fl.fin 10) (Fl.fin 250) = Fl.fin (8934420904245965 / 35184372088832) ∧
    (250 + 3.9 : ℚ) < (8934420904245965 / 35184372088832) ∧
    ((8934420904245965 / 35184372088832) : ℚ) < 250 + 4.0 := by
  refine ⟨?_, by norm_num, by norm_num⟩
  rw [linearizeCelcius64_fin 10 250 _ totalVoltage64_scenario,
    if_neg (by norm_num), if_pos (by rw [k20644_val]; norm_num)]
  exact congrArg LinearizeState64.correctedTemp
    (forLoop64_ten dMid _ _ _ _ _ _ _ _ _ _ _ _ mid_pass_0 mid_pass_1 mid_pass_2 mid_pass_3
      mid_pass_4 mid_pass_5 mid_pass_6 mid_pass_7 mid_pass_8 mid_pass_9)

/-! ## Linearization in binary64 -/

/-- C10 (counterexample): on the frame `0x00040000` (thermocouple field 1) `readCelsius`
yields 0.25 and `readFarenheit` returns the binary32 value `8506573 / 262144`
(32.4500007...), which is not `0.25 * 9 / 5 + 32 = 32.45`. -/
theorem readFarenheit_rounding_counterexample :
    readCelsius 0x00040000 = some 0.25 ∧
    readFarenheit 0x00040000 = Fl.fin (8506573 / 262144) ∧
    (8506573 / 262144 : ℚ) ≠ 0.25 * 9 / 5 + 32 := by
  have hC : readCelsius 0x00040000 = some (1 / 4) := by
    unfold readCelsius
    rw [decodeCelsius_eq _ (by norm_num) (by norm_num)]
    norm_num
  have s0 : roundTo binary32 (1 / 4) = Fl.fin (1 / 4) :=
    roundTo_exact binary32 _ 1 (-2) (by norm_num) (by norm_num [binary32])
      (by norm_num [binary32]) (by norm_num [binary32, abs_lt])
  have l9 : lit64 9.0 = Fl.fin 9 := by
    unfold lit64
    rw [show (9.0 : ℚ) = 9 by norm_num]
    exact roundTo_exact binary64 _ 9 0 (by norm_num) (by norm_num [binary64])
      (by norm_num [binary64]) (by norm_num [binary64])
  have l5 : lit64 5.0 = Fl.fin 5 := by
    unfold lit64
    rw [show (5.0 : ℚ) = 5 by norm_num]
    exact roundTo_exact binary64 _ 5 0 (by norm_num) (by norm_num [binary64])
      (by norm_num [binary64]) (by norm_num [binary64])
  have s1 : roundTo binary64 (1 / 4 * 9) = Fl.fin (9 / 4) := by
    rw [show (1 / 4 * 9 : ℚ) = 9 / 4 by norm_num]
    exact roundTo_exact binary64 _ 9 (-2) (by norm_num) (by norm_num [binary64])
      (by norm_num [binary64]) (by norm_num [binary64, abs_lt])
  have s2 : roundTo binary32 (9 / 4) = Fl.fin (9 / 4) :=
    roundTo_exact binary32 _ 9 (-2) (by norm_num) (by norm_num [binary32])
      (by norm_num [binary32]) (by norm_num [binary32, abs_lt])
  have s3 : roundTo binary64 (9 / 4 / 5) = Fl.fin (8106479329266893 / 18014398509481984) := by
    have h := roundTo_eval binary64 (9 / 4 / 5) (-2) 8106479329266893
      (by norm_num [abs_of_pos]) (by norm_num [abs_of_pos]) (by norm_num [binary64])
      (by norm_num [binary64, abs_lt]) (by norm_num [binary64, abs_of_pos])
    rw [h]
    norm_num [binary64]
  have s4 : roundTo binary32 (8106479329266893 / 18014398509481984)
      = Fl.fin (7549747 / 16777216) := by
    have h := roundTo_eval binary32 (8106479329266893 / 18014398509481984) (-2) 15099494
      (by norm_num [abs_of_pos]) (by norm_num [abs_of_pos]) (by norm_num [binary32])
      (by norm_num [binary32, abs_lt]) (by norm_num [binary32, abs_of_pos])
    rw [h]
    norm_num [binary32]
  have s5 : roundTo binary32 32 = Fl.fin 32 :=
    roundTo_exact binary32 _ 1 5 (by norm_num) (by norm_num [binary32])
      (by norm_num [binary32]) (by norm_num [binary32])
  have s6 : roundTo binary32 (7549747 / 16777216 + 32) = Fl.fin (8506573 / 262144) := by
    have h := roundTo_eval binary32 (7549747 / 16777216 + 32) 5 8506573
      (by norm_num [abs_of_pos]) (by norm_num [abs_of_pos]) (by norm_num [binary32])
      (by norm_num [binary32, abs_lt]) (by norm_num [binary32, abs_of_pos])
    rw [h]
    norm_num [binary32]
  refine ⟨by rw [hC]; norm_num, ?_, by norm_num⟩
  have e0 : toFloat (ofDbl (some (1 / 4))) = Fl.fin (1 / 4) := s0
  have e1 : toFloat (flmul binary64 (Fl.fin (1 / 4)) (Fl.fin 9)) = Fl.fin (9 / 4) := by
    rw [show flmul binary64 (Fl.fin (1 / 4)) (Fl.fin 9) = Fl.fin (9 / 4) from s1]
    exact s2
  have e2 : toFloat (fldiv binary64 (Fl.fin (9 / 4)) (Fl.fin 5))
      = Fl.fin (7549747 / 16777216) := by
    have h5 : fldiv binary64 (Fl.fin (9 / 4)) (Fl.fin 5) = roundTo binary64 (9 / 4 / 5) := by
      simp [fldiv]
    rw [h5, s3]
    exact s4
  have e3 : fladd binary32 (Fl.fin (7549747 / 16777216)) (Fl.fin 32)
      = Fl.fin (8506573 / 262144) := s6
  unfold readFarenheit
  simp only []
  rw [hC, e0, l9, e1, l5, e2, s5, e3]

/-- A finite result of a rounding is an integer multiple of a power of two. -/
theorem roundTo_dyadic (F : Format) (x t : ℚ) (h : roundTo F x = Fl.fin t) :
    ∃ m k : Int, t = (m : ℚ) * 2 ^ k := by
  unfold roundTo at h
  split_ifs at h
  · exact ⟨_, _, (Fl.fin.inj h).symm⟩

/-- A finite result of an addition is an integer multiple of a power of two. -/
theorem fladd_dyadic (F : Format) (x y : Fl) (t : ℚ) (h : fladd F x y = Fl.fin t) :
    ∃ m k : Int, t = (m : ℚ) * 2 ^ k := by
  cases x <;> cases y <;> simp only [fladd, reduceCtorEq] at h
  exact roundTo_dyadic F _ t h

/-- The Fahrenheit value `c * 9 / 5 + 32` of a quarter-degree reading `c = n / 4` is a
binary fraction only when `n` is a multiple of 5. -/
theorem five_dvd_of_dyadic (n m k : Int)
    (h : (n : ℚ) / 4 * 9 / 5 + 32 = (m : ℚ) * 2 ^ k) : (5 : Int) ∣ n := by
  have h1 : (9 * n + 640 : ℚ) = 20 * m * 2 ^ k := by linarith
  rcases le_or_lt 0 k with hk | hk
  · lift k to ℕ using hk
    rw [zpow_natCast] at h1
    have h2 : (9 * n + 640 : Int) = 20 * m * 2 ^ k := by exact_mod_cast h1
    have h3 : (5 : Int) ∣ 9 * n + 640 := ⟨4 * m * 2 ^ k, by rw [h2]; ring⟩
    omega
  · obtain ⟨a, ha⟩ : ∃ a : ℕ, k = -(a : Int) := ⟨(-k).toNat, by omega⟩
    subst ha
    rw [zpow_neg, zpow_natCast] at h1
    have hpos : (0 : ℚ) < 2 ^ a := by positivity
    have h2 : ((9 * n + 640) * 2 ^ a : ℚ) = 20 * m := by
      rw [h1]
      field_simp
    have h3 : (9 * n + 640) * 2 ^ a = 20 * m := by exact_mod_cast h2
    have h4 : (5 : Int) ∣ (9 * n + 640) * 2 ^ a := ⟨4 * m, by rw [h3]; ring⟩
    have hc : IsCoprime (5 : Int) (2 ^ a) := IsCoprime.pow_right ⟨1, -2, by norm_num⟩
    have h5 := hc.dvd_of_dvd_mul_right h4
    omega

/-- A valid `readCelsius` value is a quarter of an integer between -8192 and 8191. -/
theorem readCelsius_quarter (f : Nat) (hf : f < 2 ^ 32) (c : ℚ) (h : readCelsius f = some c) :
    ∃ n : Int, -8192 ≤ n ∧ n ≤ 8191 ∧ c = (n : ℚ) / 4 := by
  have hmod : f % 2 ^ 32 = f := Nat.mod_eq_of_lt hf
  by_cases h7 : f % 8 = 0
  · unfold readCelsius at h
    rw [decodeCelsius_eq f hf h7] at h
    have hc := Option.some.inj h
    refine ⟨if f < 2 ^ 31 then ((f / 262144 : Nat) : Int)
      else ((f / 262144 : Nat) : Int) - 16384, ?_, ?_, ?_⟩
    · split <;> omega
    · split <;> omega
    · rw [← hc]
      ring
  · exfalso
    have hF : f &&& 0x7 ≠ 0 := by rw [and_7]; exact h7
    simp only [readCelsius, decodeCelsius, hmod, if_pos hF, NAN] at h
    exact absurd h (by simp)

/-- C10 (amended): for every acquired frame `f`, when `readCelsius` yields the valid value
`c`, `readFarenheit` returns a finite binary32 value within 0.00025 of `c * 9 / 5 + 32`
(the quotient and the sum are each rounded to `float`), and it returns exactly
`c * 9 / 5 + 32` if and only if `c` is a multiple of 1.25; it returns NaN whenever
`readCelsius` yields NaN, in particular for every `f` with `f & 0x7 != 0`. -/
theorem readFarenheit_rounded (f : Nat) (hf : f < 2 ^ 32) :
    (∀ c : ℚ, readCelsius f = some c →
      (∃ t : ℚ, readFarenheit f = Fl.fin t ∧ |t - (c * 9 / 5 + 32)| < 0.00025) ∧
      (readFarenheit f = Fl.fin (c * 9 / 5 + 32) ↔ ∃ j : Int, c = 5 * (j : ℚ) / 4)) ∧
    (readCelsius f = NAN → readFarenheit f = Fl.nan) ∧
    (f &&& 0x7 ≠ 0 → readFarenheit f = Fl.nan) := by
  have hnan : readCelsius f = NAN → readFarenheit f = Fl.nan := by
    intro h
    simp [readFarenheit, h, NAN, ofDbl, toFloat, flmul, fldiv, fladd]
  have l9 : lit64 9.0 = Fl.fin 9 := by
    unfold lit64
    rw [show (9.0 : ℚ) = 9 by norm_num]
    exact roundTo_exact binary64 _ 9 0 (by norm_num) (by norm_num [binary64])
      (by norm_num [binary64]) (by norm_num [binary64])
  have l5 : lit64 5.0 = Fl.fin 5 := by
    unfold lit64
    rw [show (5.0 : ℚ) = 5 by norm_num]
    exact roundTo_exact binary64 _ 5 0 (by norm_num) (by norm_num [binary64])
      (by norm_num [binary64]) (by norm_num [binary64])
  have l32 : roundTo binary32 32 = Fl.fin 32 :=
    roundTo_exact binary32 _ 1 5 (by norm_num) (by norm_num [binary32])
      (by norm_num [binary32]) (by norm_num [binary32])
  refine ⟨?_, hnan, ?_⟩
  · intro c hc
    obtain ⟨n, hlo, hhi, hn⟩ := readCelsius_quarter f hf c hc
    have hnq1 : (-8192 : ℚ) ≤ (n : ℚ) := by exact_mod_cast hlo
    have hnq2 : (n : ℚ) ≤ 8191 := by exact_mod_cast hhi
    have hcabs : |c| ≤ 2048 := by
      rw [hn, abs_le]
      constructor <;> linarith
    have hcb := abs_le.mp hcabs
    -- float f = readCelsius();
    have s0 : toFloat (ofDbl (some c)) = Fl.fin c :=
      roundTo_exact binary32 c n (-2) (by rw [hn]; norm_num; ring) (by norm_num [binary32])
        (by norm_num [binary32]; rw [abs_lt]; constructor <;> omega)
        (by norm_num [binary32]; linarith)
    -- f *= 9.0;
    have s1 : toFloat (flmul binary64 (Fl.fin c) (Fl.fin 9)) = Fl.fin (c * 9) := by
      have h1 : flmul binary64 (Fl.fin c) (Fl.fin 9) = Fl.fin (c * 9) :=
        roundTo_exact binary64 (c * 9) (9 * n) (-2) (by rw [hn]; push_cast; norm_num; ring)
          (by norm_num [binary64])
          (by norm_num [binary64]; rw [abs_lt]; constructor <;> omega)
          (by norm_num [binary64]; rw [abs_lt]; constructor <;> linarith)
      rw [h1]
      exact roundTo_exact binary32 (c * 9) (9 * n) (-2) (by rw [hn]; push_cast; norm_num; ring)
        (by norm_num [binary32])
        (by norm_num [binary32]; rw [abs_lt]; constructor <;> omega)
        (by norm_num [binary32]; rw [abs_lt]; constructor <;> linarith)
    have hdiv : fldiv binary64 (Fl.fin (c * 9)) (Fl.fin 5) = roundTo binary64 (c * 9 / 5) := by
      simp [fldiv]
    constructor
    · -- f /= 5.0;
      have hx1 : |c * 9 / 5| < 2 ^ ((11 : Int) + 1) := by
        norm_num
        rw [abs_lt]
        constructor <;> linarith
      obtain ⟨y1, hy1, he1, _⟩ := roundTo_err_fin binary64 (by norm_num [binary64])
        (c * 9 / 5) 11 (by norm_num [binary64]) (by norm_num [binary64]) hx1
      have he1' : |y1 - c * 9 / 5| ≤ 1 / 4398046511104 := by
        norm_num [binary64] at he1
        exact he1
      have hb1 := abs_le.mp he1'
      have hx2 : |y1| < 2 ^ ((11 : Int) + 1) := by
        norm_num
        rw [abs_lt]
        constructor <;> linarith
      obtain ⟨y2, hy2, he2, _⟩ := roundTo_err_fin binary32 (by norm_num [binary32])
        y1 11 (by norm_num [binary32]) (by norm_num [binary32]) hx2
      have he2' : |y2 - y1| ≤ 1 / 8192 := by
        norm_num [binary32] at he2
        exact he2
      have hb2 := abs_le.mp he2'
      -- f += 32;
      have hx3 : |y2 + 32| < 2 ^ ((11 : Int) + 1) := by
        norm_num
        rw [abs_lt]
        constructor <;> linarith
      obtain ⟨t, ht, he3, _⟩ := roundTo_err_fin binary32 (by norm_num [binary32])
        (y2 + 32) 11 (by norm_num [binary32]) (by norm_num [binary32]) hx3
      have he3' : |t - (y2 + 32)| ≤ 1 / 8192 := by
        norm_num [binary32] at he3
        exact he3
      have hb3 := abs_le.mp he3'
      refine ⟨t, ?_, ?_⟩
      · have e2 : toFloat (fldiv binary64 (Fl.fin (c * 9)) (Fl.fin 5)) = Fl.fin y2 := by
          rw [hdiv, hy1]
          exact hy2
        have e3 : fladd binary32 (Fl.fin y2) (Fl.fin 32) = Fl.fin t := ht
        unfold readFarenheit
        simp only []
        rw [hc, s0, l9, s1, l5, e2, l32, e3]
      · rw [abs_lt]
        constructor <;> norm_num <;> linarith
    · refine ⟨fun hEq => ?_, ?_⟩
      · obtain ⟨m, k, hmk⟩ := fladd_dyadic binary32 _ _ _ hEq
        rw [hn] at hmk
        obtain ⟨j, hj⟩ := five_dvd_of_dyadic n m k hmk
        exact ⟨j, by rw [hn, hj]; push_cast; ring⟩
      rintro ⟨j, hj⟩
      have hjn : n = 5 * j := by
        have : (n : ℚ) = ((5 * j : Int) : ℚ) := by
          push_cast
          linarith
        exact_mod_cast this
      have hjlo : -1639 ≤ j := by omega
      have hjhi : j ≤ 1638 := by omega
      have hjq1 : (-1639 : ℚ) ≤ (j : ℚ) := by exact_mod_cast hjlo
      have hjq2 : (j : ℚ) ≤ 1638 := by exact_mod_cast hjhi
      have e2 : toFloat (fldiv binary64 (Fl.fin (c * 9)) (Fl.fin 5)) = Fl.fin (c * 9 / 5) := by
        rw [hdiv]
        have h1 : roundTo binary64 (c * 9 / 5) = Fl.fin (c * 9 / 5) :=
          roundTo_exact binary64 (c * 9 / 5) (9 * j) (-2)
            (by rw [hj]; push_cast; norm_num; ring) (by norm_num [binary64])
            (by norm_num [binary64]; rw [abs_lt]; constructor <;> omega)
            (by norm_num [binary64]; rw [hj, abs_lt]; constructor <;> linarith)
        rw [h1]
        exact roundTo_exact binary32 (c * 9 / 5) (9 * j) (-2)
          (by rw [hj]; push_cast; norm_num; ring) (by norm_num [binary32])
          (by norm_num [binary32]; rw [abs_lt]; constructor <;> omega)
          (by norm_num [binary32]; rw [hj, abs_lt]; constructor <;> linarith)
      have e3 : fladd binary32 (Fl.fin (c * 9 / 5)) (Fl.fin 32) = Fl.fin (c * 9 / 5 + 32) :=
        roundTo_exact binary32 (c * 9 / 5 + 32) (9 * j + 128) (-2)
          (by rw [hj]; push_cast; norm_num; ring) (by norm_num [binary32])
          (by norm_num [binary32]; rw [abs_lt]; constructor <;> omega)
          (by norm_num [binary32]; rw [hj, abs_lt]; constructor <;> linarith)
      unfold readFarenheit
      simp only []
      rw [hc, s0, l9, s1, l5, e2, l32, e3]
  · intro h
    apply hnan
    have hmod : f % 2 ^ 32 = f := Nat.mod_eq_of_lt hf
    simp only [readCelsius, decodeCelsius, hmod, if_pos h]

/-- Instances of the amended C10: the frame `0x00040000` (0.25 °C, not a multiple of 1.25)
reads within 0.00025 of 32.45 °F but not 32.45 °F, the frame `0x0FA00A00` (250 °C, a
multiple of 1.25) reads exactly `250 * 9 / 5 + 32` °F, the fault frame `0x0FA00A01` reads
NaN. -/
theorem readFarenheit_rounded_witness :
    (∃ t : ℚ, readFarenheit 0x00040000 = Fl.fin t ∧ |t - ((1 / 4 : ℚ) * 9 / 5 + 32)| < 0.00025) ∧
    readFarenheit 0x00040000 ≠ Fl.fin ((1 / 4 : ℚ) * 9 / 5 + 32) ∧
    readFarenheit 0x0FA00A00 = Fl.fin ((250 : ℚ) * 9 / 5 + 32) ∧
    readFarenheit 0x0FA00A01 = Fl.nan :=
  have hC1 : readCelsius 0x00040000 = some (1 / 4) := by
    unfold readCelsius
    rw [decodeCelsius_eq _ (by norm_num) (by norm_num)]
    norm_num
  have hC2 : readCelsius 0x0FA00A00 = some 250 := by
    unfold readCelsius
    rw [decodeCelsius_eq _ (by norm_num) (by norm_num)]
    norm_num
  ⟨((readFarenheit_rounded 0x00040000 (by norm_num)).1 (1 / 4) hC1).1,
   (fun hEq => by
      obtain ⟨j, hj⟩ := ((readFarenheit_rounded 0x00040000 (by norm_num)).1 (1 / 4) hC1).2.mp hEq
      have h1 : (5 * j : Int) = 1 := by
        have h2 : ((5 * j : Int) : ℚ) = 1 := by
          push_cast
          linarith
        exact_mod_cast h2
      omega),
   ((readFarenheit_rounded 0x0FA00A00 (by norm_num)).1 250 hC2).2.mpr ⟨200, by norm_num⟩,
   (readFarenheit_rounded 0x0FA00A01 (by norm_num)).2.2 (by decide)⟩

end MAX31855
